import Mathlib

/-!
Verification development for the `m3u8-parse-sort` repository.

Shallow embedding conventions:

* Rust `&str` / `String` values are modelled as `List Char` (abbreviated `Str`).
  Rust's `String` ordering is bytewise lexicographic; since UTF-8 preserves
  codepoint order, the codepoint-lexicographic order on `List Char` coincides
  with it.
* Rust `u32` is modelled as `Nat`; the `u32` range bound `< 2 ^ 32` appears as
  an explicit hypothesis where it matters (overflow makes `u32::from_str` fail,
  which is modelled in `parse_u32`).
* Rust `f32` values (only ever produced by `str::parse::<f32>` on `FRAME-RATE`
  attributes, compared with `partial_cmp`, and printed with `Display`) are
  modelled as exact rationals (`Rat`).  No floating point arithmetic is
  performed by the program, so rounding never enters; `parse_f32` models the
  plain decimal forms of Rust's float grammar (scientific notation and
  inf/nan spellings are not modelled — no claim under verification depends on
  them), and `fmtF32` models `Display` as the exact terminating decimal
  expansion.  NaN does not arise in this model, so the
  `partial_cmp(..).unwrap_or(Equal)` in `compare_stream` never takes its
  `unwrap_or` branch.
* `nom` parsers of type `IResult<&str, T>` are modelled as
  `Str → Option (Str × T)` (`none` = parse error; with complete-input
  combinators the `Incomplete` variant never arises, and `parse_playlist`
  collapses both error variants anyway).  The two unbounded loops
  (`separated_list1` and the tag loop of `parse_master_playlist`) are given
  explicit fuel `input.length + 1`; every iteration consumes at least one
  character, so the fuel is never exhausted.
* Definitions follow `src/parser.rs` and `src/sort.rs` of the repository;
  comments cite the Rust item each definition embeds.
-/

abbrev Str := List Char

def toL (s : String) : Str := s.data

/-- Model of `str::starts_with` on our `List Char` strings. -/
def beginsWith : Str → Str → Bool
  | _, [] => true
  | [], _ :: _ => false
  | a :: s, b :: t => a = b && beginsWith s t

/-- Rust `char::is_whitespace`: the Unicode `White_Space` property
(U+0009..U+000D, U+0020, U+0085, U+00A0, U+1680, U+2000..U+200A, U+2028,
U+2029, U+202F, U+205F, U+3000). -/
def isWS (c : Char) : Bool :=
  (0x9 ≤ c.toNat && c.toNat ≤ 0xD) || c.toNat = 0x20 || c.toNat = 0x85 ||
  c.toNat = 0xA0 || c.toNat = 0x1680 ||
  (0x2000 ≤ c.toNat && c.toNat ≤ 0x200A) || c.toNat = 0x2028 ||
  c.toNat = 0x2029 || c.toNat = 0x202F || c.toNat = 0x205F ||
  c.toNat = 0x3000

/-- Rust `str::trim`: remove leading and trailing whitespace. -/
def trimL (s : Str) : Str := ((s.dropWhile isWS).reverse.dropWhile isWS).reverse

/-- Rust `str::split(c)`: split on every occurrence of `c`, keeping empty
pieces (`"axxb".split('x')` gives `["a", "", "b"]`). -/
def splitCh (c : Char) : Str → List Str
  | [] => [[]]
  | a :: t =>
    if a = c then [] :: splitCh c t
    else
      match splitCh c t with
      | [] => [[a]]
      | h :: r => (a :: h) :: r

/-- Decimal digits of `n`, least significant first, with fuel. -/
def natDigitsRev : Nat → Nat → List Char
  | 0, _ => []
  | f + 1, n =>
    if n < 10 then [Nat.digitChar n]
    else Nat.digitChar (n % 10) :: natDigitsRev f (n / 10)

/-- Rust `impl Display for u32`: plain decimal. -/
def natToStr (n : Nat) : Str := (natDigitsRev (n + 1) n).reverse

/-- Numeric value of a digit string (most significant first). -/
def digitsToNat (s : Str) : Nat :=
  s.foldl (fun a c => a * 10 + (c.toNat - '0'.toNat)) 0

/-- Rust `str::parse::<u32>`: optional leading `+`, one or more decimal
digits, error on anything else or on overflow past `u32::MAX`. -/
def parse_u32 (s : Str) : Option Nat :=
  let s2 := if s.head? = some '+' then s.tail else s
  if s2 ≠ [] ∧ s2.all Char.isDigit then
    let n := digitsToNat s2
    if n < 4294967296 then some n else none
  else none

/-- Fractional decimal digits of `r / d` (`r < d`), with fuel: exact
expansion, stopping when the remainder vanishes. -/
def fracDigits : Nat → Nat → Nat → List Char
  | 0, _, _ => []
  | f + 1, r, d =>
    if r = 0 then []
    else Nat.digitChar (r * 10 / d) :: fracDigits f (r * 10 % d) d

/-- Rust `impl Display for f32` on the (finite, decimally terminating) values
the program produces: sign, integer part, and the exact fractional expansion
when it is nonzero.  Implemented with pure `Nat` arithmetic on the numerator
and denominator of the rational model. -/
def fmtF32 (q : Rat) : Str :=
  (if q.num < 0 then ['-'] else []) ++
    natToStr (q.num.natAbs / q.den) ++
    (let r := q.num.natAbs % q.den
     if r = 0 then [] else '.' :: fracDigits 64 r q.den)

/-- Rust `str::parse::<f32>` restricted to plain decimal forms
(`[+-]?digits`, `[+-]?digits.digits*`, `[+-]?.digits`); exact rational value. -/
def parse_f32 (s : Str) : Option Rat :=
  let (neg, s1) :=
    match s with
    | '-' :: t => (true, t)
    | '+' :: t => (false, t)
    | t => (false, t)
  let ip := s1.takeWhile Char.isDigit
  let rest := s1.drop ip.length
  match rest with
  | [] =>
    if ip = [] then none
    else
      let m : Int := digitsToNat ip
      some (mkRat (if neg then -m else m) 1)
  | '.' :: fr =>
    if fr.all Char.isDigit ∧ (ip ≠ [] ∨ fr ≠ []) then
      let m : Int := digitsToNat ip * 10 ^ fr.length + digitsToNat fr
      some (mkRat (if neg then -m else m) (10 ^ fr.length))
    else none
  | _ => none

/-! ## The data model (`src/parser.rs`) -/

/-- `pub struct StreamVariant` — one `EXT-X-STREAM-INF` entry. -/
structure StreamVariant where
  bandwidth : Nat
  average_bandwidth : Option Nat
  codecs : Option Str
  resolution : Option (Nat × Nat)
  frame_rate : Option Rat
  video_range : Option Str
  audio : Option Str
  closed_captions : Option Str
  uri : Str
deriving DecidableEq

/-- `pub struct MediaTrack` — one `EXT-X-MEDIA` entry. -/
structure MediaTrack where
  track_type : Option Str
  group_id : Option Str
  name : Option Str
  language : Option Str
  default : Option Str
  autoselect : Option Str
  channels : Option Str
  uri : Option Str
deriving DecidableEq

/-- `pub struct IFrameStream` — one `EXT-X-I-FRAME-STREAM-INF` entry. -/
structure IFrameStream where
  bandwidth : Nat
  codecs : Option Str
  resolution : Option (Nat × Nat)
  video_range : Option Str
  uri : Str
deriving DecidableEq

/-- `pub struct MasterPlaylist`. -/
structure MasterPlaylist where
  independent_segments : Bool
  variants : List StreamVariant
  media : List MediaTrack
  frames : List IFrameStream
deriving DecidableEq

/-! ## Serialization (the `fmt::Display` impls and `MasterPlaylist::write_to`)

Each `Display` impl pushes `KEY=value` pieces into a `parts` vector and joins
them with `","`.  We model a piece as a `(key, value, quoted)` triple; a
quoted piece renders as `KEY="value"` (`format!("{}=\"{}\"", ..)`), an
unquoted one as `KEY=value`. -/

abbrev AttrPart := Str × Str × Bool

def renderPart : AttrPart → Str
  | (k, v, true) => k ++ '=' :: '"' :: (v ++ ['"'])
  | (k, v, false) => k ++ '=' :: v

/-- Rust `Vec::join(",")` (specialised to a one-character separator). -/
def joinComma : List Str → Str
  | [] => []
  | [x] => x
  | x :: xs => x ++ ',' :: joinComma xs

def optPart (key : String) (quoted : Bool) : Option Str → List AttrPart
  | none => []
  | some v => [(toL key, v, quoted)]

/-- The pieces pushed by `impl fmt::Display for MediaTrack`, in source order
(`TYPE`, `GROUP-ID`, `NAME`, `LANGUAGE`, `DEFAULT`, `AUTOSELECT`, `CHANNELS`,
`URI`, each emitted only when present; `GROUP-ID`, `NAME`, `LANGUAGE`,
`CHANNELS`, `URI` are interpolated inside `\"..\"`). -/
def mtParts (m : MediaTrack) : List AttrPart :=
  optPart "TYPE" false m.track_type ++
  optPart "GROUP-ID" true m.group_id ++
  optPart "NAME" true m.name ++
  optPart "LANGUAGE" true m.language ++
  optPart "DEFAULT" false m.default ++
  optPart "AUTOSELECT" false m.autoselect ++
  optPart "CHANNELS" true m.channels ++
  optPart "URI" true m.uri

/-- `impl fmt::Display for MediaTrack`: `#EXT-X-MEDIA:` then the joined parts. -/
def renderMediaTrack (m : MediaTrack) : Str :=
  toL "#EXT-X-MEDIA:" ++ joinComma ((mtParts m).map renderPart)

/-- The pieces pushed by `impl fmt::Display for StreamVariant`: mandatory
`BANDWIDTH`, then the optional fields in source order. -/
def svParts (v : StreamVariant) : List AttrPart :=
  [(toL "BANDWIDTH", natToStr v.bandwidth, false)] ++
  (match v.average_bandwidth with
   | none => []
   | some a => [(toL "AVERAGE-BANDWIDTH", natToStr a, false)]) ++
  optPart "CODECS" true v.codecs ++
  (match v.resolution with
   | none => []
   | some (w, h) => [(toL "RESOLUTION", natToStr w ++ 'x' :: natToStr h, false)]) ++
  (match v.frame_rate with
   | none => []
   | some x => [(toL "FRAME-RATE", fmtF32 x, false)]) ++
  optPart "VIDEO-RANGE" false v.video_range ++
  optPart "AUDIO" true v.audio ++
  optPart "CLOSED-CAPTIONS" false v.closed_captions

/-- `impl fmt::Display for StreamVariant`:
`#EXT-X-STREAM-INF:{parts}\n{uri}`. -/
def renderStreamVariant (v : StreamVariant) : Str :=
  toL "#EXT-X-STREAM-INF:" ++ joinComma ((svParts v).map renderPart) ++
    '\n' :: v.uri

/-- The pieces pushed by `impl fmt::Display for IFrameStream`: mandatory
`BANDWIDTH`, optional `CODECS`, `RESOLUTION`, `VIDEO-RANGE`, then the
always-present quoted `URI`. -/
def ifParts (fr : IFrameStream) : List AttrPart :=
  [(toL "BANDWIDTH", natToStr fr.bandwidth, false)] ++
  optPart "CODECS" true fr.codecs ++
  (match fr.resolution with
   | none => []
   | some (w, h) => [(toL "RESOLUTION", natToStr w ++ 'x' :: natToStr h, false)]) ++
  optPart "VIDEO-RANGE" false fr.video_range ++
  [(toL "URI", fr.uri, true)]

/-- `impl fmt::Display for IFrameStream`. -/
def renderIFrameStream (fr : IFrameStream) : Str :=
  toL "#EXT-X-I-FRAME-STREAM-INF:" ++ joinComma ((ifParts fr).map renderPart)

/-- `MasterPlaylist::write_to`: header line, optional independent-segments
line, then blank-separated media / variant / I-frame sections, each record on
its own `writeln!`. -/
def renderPlaylist (p : MasterPlaylist) : Str :=
  toL "#EXTM3U" ++ '\n' ::
  ((if p.independent_segments then toL "#EXT-X-INDEPENDENT-SEGMENTS" ++ ['\n'] else []) ++
   '\n' ::
   ((p.media.map (fun m => renderMediaTrack m ++ ['\n'])).flatten ++
    '\n' ::
    ((p.variants.map (fun v => renderStreamVariant v ++ ['\n'])).flatten ++
     '\n' ::
     (p.frames.map (fun fr => renderIFrameStream fr ++ ['\n'])).flatten)))

/-! ## The parsers (`src/parser.rs`) -/

/-- `nom::bytes::complete::tag`: match a literal prefix. -/
def tagP (t : String) (s : Str) : Option Str :=
  if beginsWith s (toL t) then some (s.drop (toL t).length) else none

/-- `nom::character::complete::not_line_ending` (complete input): take all
characters before `\r\n` or `\n`; a `\r` not followed by `\n` is an error.
Returns `(rest, taken)`. -/
def notLineEnding (s : Str) : Option (Str × Str) :=
  let a := s.takeWhile (fun c => c ≠ '\r' && c ≠ '\n')
  let r := s.drop a.length
  if r.head? = some '\r' ∧ r.tail.head? ≠ some '\n' then none
  else some (r, a)

/-- `nom::character::complete::line_ending`: `\n` or `\r\n`. -/
def lineEnding : Str → Option Str
  | '\n' :: r => some r
  | '\r' :: '\n' :: r => some r
  | _ => none

/-- `fn parse_key`: `take_while1(|c| c.is_alphanumeric() || c == '-')`. -/
def isKeyChar (c : Char) : Bool := c.isAlphanum || c = '-'

def parse_key (s : Str) : Option (Str × Str) :=
  let k := s.takeWhile isKeyChar
  if k = [] then none else some (s.drop k.length, k)

/-- `fn parse_quoted_string`: `tag("\"")`, `is_not("\"")` (one or more
characters before the next quote), `tag("\"")`. -/
def parse_quoted_string (s : Str) : Option (Str × Str) :=
  if s.head? = some '"' then
    let t := s.tail
    let v := t.takeWhile (fun c => c ≠ '"')
    if v = [] then none
    else if (t.drop v.length).head? = some '"' then
      some ((t.drop v.length).tail, v)
    else none
  else none

/-- `fn parse_unquoted_string`: `is_not(",")` (one or more characters up to a
comma or end of input) then `trim`. -/
def parse_unquoted_string (s : Str) : Option (Str × Str) :=
  let v := s.takeWhile (fun c => c ≠ ',')
  if v = [] then none else some (s.drop v.length, trimL v)

/-- `fn parse_quoted_or_unquoted_string`. -/
def parse_quoted_or_unquoted_string (s : Str) : Option (Str × Str) :=
  if s.head? = some '"' then parse_quoted_string s else parse_unquoted_string s

/-- One `separated_pair(parse_key, tag("="), parse_quoted_or_unquoted_string)`
element of the attribute list. -/
def parseKVPair (s : Str) : Option (Str × (Str × Str)) :=
  match parse_key s with
  | none => none
  | some (s1, k) =>
    match tagP "=" s1 with
    | none => none
    | some s2 =>
      match parse_quoted_or_unquoted_string s2 with
      | none => none
      | some (s3, v) => some (s3, (k, v))

/-- The iteration of `separated_list1(tag(","), ..)` after the first element:
if a `,` followed by a further element matches, consume both and continue;
otherwise stop without consuming (nom backtracks the separator). -/
def kvLoop : Nat → Str → List (Str × Str) → Option (Str × List (Str × Str))
  | 0, _, _ => none
  | f + 1, s, acc =>
    if s.head? = some ',' then
      match parseKVPair s.tail with
      | some (s', p) => kvLoop f s' (acc ++ [p])
      | none => some (s, acc)
    else some (s, acc)

/-- `separated_list1(tag(","), separated_pair(parse_key, tag("="),
parse_quoted_or_unquoted_string))`: at least one element. -/
def kvList (s : Str) : Option (Str × List (Str × Str)) :=
  match parseKVPair s with
  | none => none
  | some (s1, p) => kvLoop (s1.length + 1) s1 [p]

/-- `fn parse_uri`: `not_line_ending`, kept verbatim. -/
def parse_uri (s : Str) : Option (Str × Str) :=
  match notLineEnding s with
  | none => none
  | some (r, uri) => some (r, uri)

/-- The `match key.as_str()` fold body of `parse_stream_variant`. -/
def applyStreamPair (sv : StreamVariant) (p : Str × Str) : StreamVariant :=
  if p.1 = toL "BANDWIDTH" then
    { sv with bandwidth := (parse_u32 p.2).getD 0 }
  else if p.1 = toL "AVERAGE-BANDWIDTH" then
    { sv with average_bandwidth := some ((parse_u32 p.2).getD 0) }
  else if p.1 = toL "CODECS" then
    { sv with codecs := some p.2 }
  else if p.1 = toL "RESOLUTION" then
    match splitCh 'x' p.2 with
    | [a, b] =>
      match parse_u32 a, parse_u32 b with
      | some w, some h => { sv with resolution := some (w, h) }
      | _, _ => sv
    | _ => sv
  else if p.1 = toL "FRAME-RATE" then
    { sv with frame_rate := some ((parse_f32 p.2).getD 0) }
  else if p.1 = toL "VIDEO-RANGE" then
    { sv with video_range := some p.2 }
  else if p.1 = toL "AUDIO" then
    { sv with audio := some p.2 }
  else if p.1 = toL "CLOSED-CAPTIONS" then
    { sv with closed_captions := some p.2 }
  else sv

/-- The default-initialised `StreamVariant` of `parse_stream_variant`. -/
def initSV : StreamVariant :=
  { bandwidth := 0, average_bandwidth := none, codecs := none,
    resolution := none, frame_rate := none, video_range := none,
    audio := none, closed_captions := none, uri := [] }

/-- `fn parse_stream_variant`: tag prefix, capture the rest of the line with
`not_line_ending`, run the attribute grammar on that section (its leftover is
discarded — `let (_, key_value_pairs) = ..`), fold the pairs, then consume the
line ending and take the following line as `uri`. -/
def parse_stream_variant (s : Str) : Option (Str × StreamVariant) :=
  match tagP "#EXT-X-STREAM-INF:" s with
  | none => none
  | some s1 =>
    match notLineEnding s1 with
    | none => none
    | some (s2, sect) =>
      match kvList sect with
      | none => none
      | some (_, pairs) =>
        let sv := pairs.foldl applyStreamPair initSV
        match lineEnding s2 with
        | none => none
        | some s3 =>
          match parse_uri s3 with
          | none => none
          | some (s4, uri) => some (s4, { sv with uri := uri })

/-- The `match key.as_str()` fold body of `parse_media_track`. -/
def applyMediaPair (m : MediaTrack) (p : Str × Str) : MediaTrack :=
  if p.1 = toL "TYPE" then { m with track_type := some p.2 }
  else if p.1 = toL "GROUP-ID" then { m with group_id := some p.2 }
  else if p.1 = toL "NAME" then { m with name := some p.2 }
  else if p.1 = toL "LANGUAGE" then { m with language := some p.2 }
  else if p.1 = toL "DEFAULT" then { m with default := some p.2 }
  else if p.1 = toL "AUTOSELECT" then { m with autoselect := some p.2 }
  else if p.1 = toL "CHANNELS" then { m with channels := some p.2 }
  else if p.1 = toL "URI" then { m with uri := some p.2 }
  else m

def initMT : MediaTrack :=
  { track_type := none, group_id := none, name := none, language := none,
    default := none, autoselect := none, channels := none, uri := none }

/-- `fn parse_media_track`: tag prefix, then the attribute grammar directly on
the remaining input (no line isolation), fold the pairs. -/
def parse_media_track (s : Str) : Option (Str × MediaTrack) :=
  match tagP "#EXT-X-MEDIA:" s with
  | none => none
  | some s1 =>
    match kvList s1 with
    | none => none
    | some (s2, pairs) => some (s2, pairs.foldl applyMediaPair initMT)

/-- The `match key.as_str()` fold body of `parse_iframe_stream`. -/
def applyIFramePair (fr : IFrameStream) (p : Str × Str) : IFrameStream :=
  if p.1 = toL "BANDWIDTH" then
    { fr with bandwidth := (parse_u32 p.2).getD 0 }
  else if p.1 = toL "CODECS" then
    { fr with codecs := some p.2 }
  else if p.1 = toL "RESOLUTION" then
    match splitCh 'x' p.2 with
    | [a, b] =>
      match parse_u32 a, parse_u32 b with
      | some w, some h => { fr with resolution := some (w, h) }
      | _, _ => fr
    | _ => fr
  else if p.1 = toL "VIDEO-RANGE" then
    { fr with video_range := some p.2 }
  else if p.1 = toL "URI" then
    { fr with uri := p.2 }
  else fr

def initIF : IFrameStream :=
  { bandwidth := 0, codecs := none, resolution := none, video_range := none,
    uri := [] }

/-- `fn parse_iframe_stream`: tag prefix, capture the line, run the attribute
grammar on the section (leftover discarded), fold; the line ending is left
unconsumed. -/
def parse_iframe_stream (s : Str) : Option (Str × IFrameStream) :=
  match tagP "#EXT-X-I-FRAME-STREAM-INF:" s with
  | none => none
  | some s1 =>
    match notLineEnding s1 with
    | none => none
    | some (s2, sect) =>
      match kvList sect with
      | none => none
      | some (_, pairs) => some (s2, pairs.foldl applyIFramePair initIF)

/-- `fn parse_extm3u`: the `#EXTM3U` tag and its newline. -/
def parse_extm3u (s : Str) : Option Str :=
  match tagP "#EXTM3U" s with
  | none => none
  | some s1 => lineEnding s1

/-- `fn parse_ext_x_independent_segments`. -/
def parse_ext_x_independent_segments (s : Str) : Option Str :=
  match tagP "#EXT-X-INDEPENDENT-SEGMENTS" s with
  | none => none
  | some s1 => lineEnding s1

/-- The `while !input.is_empty()` loop of `parse_master_playlist`: dispatch on
the tag prefix (I-FRAME first, then STREAM-INF, then MEDIA), otherwise skip
one line (`not_line_ending` followed by `line_ending`).  Fueled; each
iteration consumes at least one character. -/
def tagLoop : Nat → Str → List StreamVariant → List MediaTrack →
    List IFrameStream → Option (List StreamVariant × List MediaTrack × List IFrameStream)
  | 0, _, _, _, _ => none
  | f + 1, s, vs, ms, fs =>
    if s = [] then some (vs, ms, fs)
    else if beginsWith s (toL "#EXT-X-I-FRAME-STREAM-INF") then
      match parse_iframe_stream s with
      | some (rest, fr) => tagLoop f rest vs ms (fs ++ [fr])
      | none => none
    else if beginsWith s (toL "#EXT-X-STREAM-INF") then
      match parse_stream_variant s with
      | some (rest, v) => tagLoop f rest (vs ++ [v]) ms fs
      | none => none
    else if beginsWith s (toL "#EXT-X-MEDIA") then
      match parse_media_track s with
      | some (rest, m) => tagLoop f rest vs (ms ++ [m]) fs
      | none => none
    else
      match notLineEnding s with
      | none => none
      | some (r1, _) =>
        match lineEnding r1 with
        | none => none
        | some r2 => tagLoop f r2 vs ms fs

/-- Assembling `parse_master_playlist`'s result from the loop's output: an
error propagates, a success yields the playlist with empty remaining input. -/
def assemble (indep : Bool)
    (r : Option (List StreamVariant × List MediaTrack × List IFrameStream)) :
    Option (Str × MasterPlaylist) :=
  match r with
  | none => none
  | some (vs, ms, fs) =>
    some ([], { independent_segments := indep, variants := vs, media := ms,
                frames := fs })

/-- `fn parse_master_playlist`: `#EXTM3U`, optional
`#EXT-X-INDEPENDENT-SEGMENTS` (via `opt`), then the tag loop. -/
def parse_master_playlist (s : Str) : Option (Str × MasterPlaylist) :=
  match parse_extm3u s with
  | none => none
  | some s1 =>
    let (s2, indep) :=
      match parse_ext_x_independent_segments s1 with
      | some r => (r, true)
      | none => (s1, false)
    assemble indep (tagLoop (s2.length + 1) s2 [] [] [])

/-- `pub fn parse_playlist`: run `parse_master_playlist`, collapse the error
detail. -/
def parse_playlist (s : Str) : Option MasterPlaylist :=
  match parse_master_playlist s with
  | none => none
  | some (_, p) => some p

/-! ## Sorting (`src/sort.rs`) -/

/-- `pub enum SortStreamBy` (source variant order). -/
inductive SortStreamBy where
  | bandwidth
  | averageBandwidth
  | codecs
  | resolution
  | frameRate
  | videoRange
  | audio
  | closedCaptions
  | uri
deriving DecidableEq

/-- `#[default] Bandwidth` on `SortStreamBy`. -/
instance : Inhabited SortStreamBy := ⟨SortStreamBy.bandwidth⟩

/-- `pub enum SortMediaBy` (source variant order; `Type` is variant #0). -/
inductive SortMediaBy where
  | type
  | groupId
  | name
  | language
  | default
  | autoSelect
  | channels
  | uri
deriving DecidableEq

/-- `#[default] GroupId` on `SortMediaBy` (variant #1, not #0). -/
instance : Inhabited SortMediaBy := ⟨SortMediaBy.groupId⟩

/-- `pub enum SortIFrameBy` (source variant order). -/
inductive SortIFrameBy where
  | bandwidth
  | codecs
  | resolution
  | videoRange
  | uri
deriving DecidableEq

/-- `#[default] Bandwidth` on `SortIFrameBy`. -/
instance : Inhabited SortIFrameBy := ⟨SortIFrameBy.bandwidth⟩

/-- Rust `Ord` on `char`/byte content: codepoint comparison (coincides with
`String`'s bytewise order under UTF-8). -/
def charCmp (a b : Char) : Ordering := compare a.val.toNat b.val.toNat

/-- Rust `Ord for String`: lexicographic. -/
def strCmp : Str → Str → Ordering
  | [], [] => .eq
  | [], _ :: _ => .lt
  | _ :: _, [] => .gt
  | a :: s, b :: t =>
    match charCmp a b with
    | .eq => strCmp s t
    | o => o

/-- Rust `Ord for Option<T>`: `None` is less than `Some`. -/
def optCmp (cmp : α → α → Ordering) : Option α → Option α → Ordering
  | none, none => .eq
  | none, some _ => .lt
  | some _, none => .gt
  | some a, some b => cmp a b

def natCmp (a b : Nat) : Ordering := compare a b

/-- Rust `Ord for (u32, u32)`: lexicographic, width first. -/
def resCmp (a b : Nat × Nat) : Ordering :=
  match natCmp a.1 b.1 with
  | .eq => natCmp a.2 b.2
  | o => o

/-- `a.frame_rate.partial_cmp(&b.frame_rate).unwrap_or(Equal)`; on the
rational model `partial_cmp` is total (`None < Some`, numeric comparison on
`Some`s; the NaN-induced `unwrap_or(Equal)` branch cannot arise). -/
def ratCmp (a b : Rat) : Ordering :=
  if a < b then .lt else if a = b then .eq else .gt

/-- `MasterPlaylist::compare_stream`. -/
def compare_stream (a b : StreamVariant) : SortStreamBy → Ordering
  | .bandwidth => natCmp a.bandwidth b.bandwidth
  | .averageBandwidth => optCmp natCmp a.average_bandwidth b.average_bandwidth
  | .resolution => optCmp resCmp a.resolution b.resolution
  | .uri => strCmp a.uri b.uri
  | .codecs => optCmp strCmp a.codecs b.codecs
  | .videoRange => optCmp strCmp a.video_range b.video_range
  | .audio => optCmp strCmp a.audio b.audio
  | .closedCaptions => optCmp strCmp a.closed_captions b.closed_captions
  | .frameRate => optCmp ratCmp a.frame_rate b.frame_rate

/-- `MasterPlaylist::compare_media`. -/
def compare_media (a b : MediaTrack) : SortMediaBy → Ordering
  | .type => optCmp strCmp a.track_type b.track_type
  | .groupId => optCmp strCmp a.group_id b.group_id
  | .name => optCmp strCmp a.name b.name
  | .language => optCmp strCmp a.language b.language
  | .default => optCmp strCmp a.default b.default
  | .autoSelect => optCmp strCmp a.autoselect b.autoselect
  | .channels => optCmp strCmp a.channels b.channels
  | .uri => optCmp strCmp a.uri b.uri

/-- `MasterPlaylist::compare_iframe`. -/
def compare_iframe (a b : IFrameStream) : SortIFrameBy → Ordering
  | .bandwidth => natCmp a.bandwidth b.bandwidth
  | .resolution => optCmp resCmp a.resolution b.resolution
  | .uri => strCmp a.uri b.uri
  | .codecs => optCmp strCmp a.codecs b.codecs
  | .videoRange => optCmp strCmp a.video_range b.video_range

/-- The closure passed to `sort_by`: primary comparison, ties broken by the
secondary. -/
def cmpBy2 (cmp : α → α → κ → Ordering) (k : κ × κ) (a b : α) : Ordering :=
  match cmp a b k.1 with
  | .eq => cmp a b k.2
  | o => o

/-- Stable insertion preserving the order of existing elements: the new
element goes in front of the first element it does not strictly exceed. -/
def ordInsert (cmp : α → α → Ordering) (x : α) : List α → List α
  | [] => [x]
  | y :: ys => if cmp x y ≠ .gt then x :: y :: ys else y :: ordInsert cmp x ys

/-- Model of `Vec::sort_by` (documented to be a stable sort) as stable
insertion sort; for the total preorders produced by the comparators above,
every stable sort computes this same result. -/
def sortByCmp (cmp : α → α → Ordering) : List α → List α
  | [] => []
  | x :: xs => ordInsert cmp x (sortByCmp cmp xs)

/-- `MasterPlaylist::sort_stream`. -/
def MasterPlaylist.sort_stream (p : MasterPlaylist)
    (k : SortStreamBy × SortStreamBy) : MasterPlaylist :=
  { p with variants := sortByCmp (cmpBy2 compare_stream k) p.variants }

/-- `MasterPlaylist::sort_media`. -/
def MasterPlaylist.sort_media (p : MasterPlaylist)
    (k : SortMediaBy × SortMediaBy) : MasterPlaylist :=
  { p with media := sortByCmp (cmpBy2 compare_media k) p.media }

/-- `MasterPlaylist::sort_iframe`. -/
def MasterPlaylist.sort_iframe (p : MasterPlaylist)
    (k : SortIFrameBy × SortIFrameBy) : MasterPlaylist :=
  { p with frames := sortByCmp (cmpBy2 compare_iframe k) p.frames }

/-- `pub fn get_sort_order`: primary is the first selected field (or the
enumeration's `Default`), secondary is the second (or the same default). -/
def get_sort_order {T : Type} [Inhabited T] (so : List T) : T × T :=
  ((so.head?.getD default), ((so.get? 1).getD default))

/-- Fuel consumed by the tag loop while traversing the rendered body of a
playlist: one step per blank separator, two per record. -/
def docCost (p : MasterPlaylist) : Nat :=
  3 + 2 * (p.media.length + p.variants.length + p.frames.length)

/-- The rendered body of a playlist (everything after the header and the
optional independent-segments line), with `rest` appended. -/
def bodyStr (p : MasterPlaylist) (rest : Str) : Str :=
  '\n' :: ((p.media.map (fun m => renderMediaTrack m ++ ['\n'])).flatten ++
    '\n' :: ((p.variants.map (fun v => renderStreamVariant v ++ ['\n'])).flatten ++
      '\n' :: ((p.frames.map (fun fr => renderIFrameStream fr ++ ['\n'])).flatten ++
        rest)))

/-- Whether a `SortStreamBy` key refers to an optional field. -/
def svOptionalKey : SortStreamBy → Bool
  | .bandwidth => false
  | .uri => false
  | _ => true

/-- Whether the (optional) field selected by a `SortStreamBy` key is absent. -/
def svFieldNone : SortStreamBy → StreamVariant → Bool
  | .bandwidth, _ => false
  | .averageBandwidth, v => v.average_bandwidth.isNone
  | .codecs, v => v.codecs.isNone
  | .resolution, v => v.resolution.isNone
  | .frameRate, v => v.frame_rate.isNone
  | .videoRange, v => v.video_range.isNone
  | .audio, v => v.audio.isNone
  | .closedCaptions, v => v.closed_captions.isNone
  | .uri, _ => false

/-- Every `SortMediaBy` key refers to an optional field. -/
def mtFieldNone : SortMediaBy → MediaTrack → Bool
  | .type, m => m.track_type.isNone
  | .groupId, m => m.group_id.isNone
  | .name, m => m.name.isNone
  | .language, m => m.language.isNone
  | .default, m => m.default.isNone
  | .autoSelect, m => m.autoselect.isNone
  | .channels, m => m.channels.isNone
  | .uri, m => m.uri.isNone

/-- Whether a `SortIFrameBy` key refers to an optional field. -/
def ifOptionalKey : SortIFrameBy → Bool
  | .bandwidth => false
  | .uri => false
  | _ => true

/-- Whether the (optional) field selected by a `SortIFrameBy` key is absent. -/
def ifFieldNone : SortIFrameBy → IFrameStream → Bool
  | .bandwidth, _ => false
  | .codecs, fr => fr.codecs.isNone
  | .resolution, fr => fr.resolution.isNone
  | .videoRange, fr => fr.video_range.isNone
  | .uri, _ => false

/-- The attribute keys whose values the serializers always wrap in double
quotes (note `AUDIO` is among them: `format!("AUDIO=\"{}\"", ..)`). -/
def quotedKeys : List Str :=
  [toL "CODECS", toL "GROUP-ID", toL "NAME", toL "LANGUAGE", toL "CHANNELS",
   toL "URI", toL "AUDIO"]

/-- Concrete records and documents used as witnesses and counterexamples. -/
def wM : MediaTrack :=
  { track_type := some (toL "AUDIO"), group_id := some (toL "g"), name := none,
    language := none, default := none, autoselect := none, channels := none,
    uri := some (toL "u.m3u8") }

def wV : StreamVariant :=
  { bandwidth := 800, average_bandwidth := some 600, codecs := some (toL "avc1"),
    resolution := some (960, 540), frame_rate := none,
    video_range := some (toL "PQ"), audio := some (toL "a1"),
    closed_captions := some (toL "NONE"), uri := toL "v.m3u8" }

def wV2 : StreamVariant :=
  { bandwidth := 800, average_bandwidth := none, codecs := none,
    resolution := none, frame_rate := none, video_range := none, audio := none,
    closed_captions := none, uri := toL "z.m3u8" }

def wF : IFrameStream :=
  { bandwidth := 22, codecs := some (toL "hvc1"), resolution := some (1280, 720),
    video_range := some (toL "PQ"), uri := toL "i.m3u8" }

def pE : MasterPlaylist :=
  { independent_segments := false, variants := [], media := [], frames := [] }

def pW : MasterPlaylist :=
  { independent_segments := false, variants := [wV2], media := [wM], frames := [] }

/-- A stream variant whose only quoted-class field is `AUDIO`. -/
def cxAudioSV : StreamVariant :=
  { bandwidth := 1, average_bandwidth := none, codecs := none,
    resolution := none, frame_rate := none, video_range := none,
    audio := some (toL "a"), closed_captions := none, uri := toL "u" }

/-- A document on which re-serialization is not idempotent: its media line
ends in a bare attribute value, and after normalization that value swallows
text up to the comma inside the following stream-variant line. -/
def cxT : Str :=
  toL "#EXTM3U\n#EXT-X-STREAM-INF:BANDWIDTH=1,AUDIO=\"a\"\nu\n#EXT-X-MEDIA:TYPE=AUDIO\n"

/-! ## Well-formedness predicates

`renderX` followed by `parseX` is the identity only on records whose field
contents do not collide with the concrete syntax (no embedded quote inside a
quoted value, no comma/leading quote/surrounding whitespace in an unquoted
value, no line terminators, `u32` range bounds, and a `FRAME-RATE` value whose
printed form parses back).  These predicates spell the conditions out; all are
decidable so that concrete instances can be checked by `decide`. -/

/-- No line-terminator characters. -/
def noNL (s : Str) : Prop := '\n' ∉ s ∧ '\r' ∉ s

instance (s : Str) : Decidable (noNL s) := by unfold noNL; infer_instance

/-- Absence of line terminators in an optional string field. -/
def optNoNL : Option Str → Prop
  | none => True
  | some s => noNL s

instance : (o : Option Str) → Decidable (optNoNL o)
  | none => isTrue trivial
  | some s => inferInstanceAs (Decidable (noNL s))


/-- A value rendered inside `"…"` round-trips iff nonempty (the grammar's
`is_not("\"")` needs at least one character), quote-free and terminator-free. -/
def wfQVal (s : Str) : Prop := s ≠ [] ∧ '"' ∉ s ∧ noNL s

instance (s : Str) : Decidable (wfQVal s) := by unfold wfQVal; infer_instance

/-- A value rendered bare round-trips iff nonempty, comma-free, not starting
with a quote, stable under `trim`, and terminator-free. -/
def wfUVal (s : Str) : Prop :=
  s ≠ [] ∧ ',' ∉ s ∧ s.head? ≠ some '"' ∧ trimL s = s ∧ noNL s

instance (s : Str) : Decidable (wfUVal s) := by unfold wfUVal; infer_instance

def wfOptQ : Option Str → Prop
  | none => True
  | some s => wfQVal s

instance : (o : Option Str) → Decidable (wfOptQ o)
  | none => isTrue trivial
  | some s => inferInstanceAs (Decidable (wfQVal s))

def wfOptU : Option Str → Prop
  | none => True
  | some s => wfUVal s

instance : (o : Option Str) → Decidable (wfOptU o)
  | none => isTrue trivial
  | some s => inferInstanceAs (Decidable (wfUVal s))

/-- `u32` range. -/
def wfU32 (n : Nat) : Prop := n < 4294967296

instance (n : Nat) : Decidable (wfU32 n) := by unfold wfU32; infer_instance

def wfOptU32 : Option Nat → Prop
  | none => True
  | some n => wfU32 n

instance : (o : Option Nat) → Decidable (wfOptU32 o)
  | none => isTrue trivial
  | some n => inferInstanceAs (Decidable (wfU32 n))

def wfRes : Option (Nat × Nat) → Prop
  | none => True
  | some (w, h) => wfU32 w ∧ wfU32 h

instance : (o : Option (Nat × Nat)) → Decidable (wfRes o)
  | none => isTrue trivial
  | some (w, h) => inferInstanceAs (Decidable (wfU32 w ∧ wfU32 h))

/-- A frame rate whose `Display` text parses back to the same value and is a
syntactically harmless bare attribute value. -/
def wfFR : Option Rat → Prop
  | none => True
  | some x => parse_f32 (fmtF32 x) = some x ∧ wfUVal (fmtF32 x)

instance : (o : Option Rat) → Decidable (wfFR o)
  | none => isTrue trivial
  | some x =>
    inferInstanceAs (Decidable (parse_f32 (fmtF32 x) = some x ∧ wfUVal (fmtF32 x)))

/-- Well-formed `StreamVariant`. -/
def WFsv (v : StreamVariant) : Prop :=
  wfU32 v.bandwidth ∧ wfOptU32 v.average_bandwidth ∧ wfOptQ v.codecs ∧
  wfRes v.resolution ∧ wfFR v.frame_rate ∧ wfOptU v.video_range ∧
  wfOptQ v.audio ∧ wfOptU v.closed_captions ∧ noNL v.uri

instance (v : StreamVariant) : Decidable (WFsv v) := by unfold WFsv; infer_instance

/-- Well-formed `MediaTrack`; at least one field must be present, because the
attribute grammar (`separated_list1`) rejects an empty attribute list. -/
def WFmt (m : MediaTrack) : Prop :=
  wfOptU m.track_type ∧ wfOptQ m.group_id ∧ wfOptQ m.name ∧
  wfOptQ m.language ∧ wfOptU m.default ∧ wfOptU m.autoselect ∧
  wfOptQ m.channels ∧ wfOptQ m.uri ∧ mtParts m ≠ []

instance (m : MediaTrack) : Decidable (WFmt m) := by unfold WFmt; infer_instance

/-- Well-formed `IFrameStream`. -/
def WFif (fr : IFrameStream) : Prop :=
  wfU32 fr.bandwidth ∧ wfOptQ fr.codecs ∧ wfRes fr.resolution ∧
  wfOptU fr.video_range ∧ wfQVal fr.uri

instance (fr : IFrameStream) : Decidable (WFif fr) := by unfold WFif; infer_instance

/-- Whether the last rendered attribute of a media track is a quoted one.
Needed at document level: `parse_media_track` runs the attribute grammar over
the *remaining document*, so a media line ending in a bare value would read
past its own line terminator. -/
def lastQuoted (m : MediaTrack) : Prop :=
  match (mtParts m).getLast? with
  | some (_, _, true) => True
  | _ => False

instance (m : MediaTrack) : Decidable (lastQuoted m) := by
  unfold lastQuoted
  rcases (mtParts m).getLast? with _ | ⟨k, v, q⟩
  · exact isFalse id
  · rcases q with _ | _
    · exact isFalse id
    · exact isTrue trivial

/-- Well-formed playlist: every record well-formed and every media line ending
in a quoted attribute. -/
def WFdoc (p : MasterPlaylist) : Prop :=
  (∀ v ∈ p.variants, WFsv v) ∧ (∀ m ∈ p.media, WFmt m ∧ lastQuoted m) ∧
  (∀ fr ∈ p.frames, WFif fr)

instance (p : MasterPlaylist) : Decidable (WFdoc p) := by
  unfold WFdoc; infer_instance

/-- Attribute-part well-formedness for the render/parse lemmas: a usable key
and a value fit for its quoting mode. -/
def wfPart : AttrPart → Prop
  | (k, v, q) =>
    k ≠ [] ∧ (∀ c ∈ k, isKeyChar c = true) ∧ noNL k ∧
      (if q then wfQVal v else wfUVal v)

/-- Condition under which the attribute-list loop, fed the rendered parts
followed by `rest`, stops exactly at `rest`: no part may be a bare value that
would run into `rest` (i.e. a bare part must be followed by another part or by
the end of input), and `rest` must not begin with a separator. -/
def partsOK : List AttrPart → Str → Prop
  | [], rest => rest.head? ≠ some ','
  | (_, _, q) :: ps, rest => (q = true ∨ ps ≠ [] ∨ rest = []) ∧ partsOK ps rest

/-- The decimal digit characters. -/
def digitChars : Str := ['0', '1', '2', '3', '4', '5', '6', '7', '8', '9']

/-- The `(key, value)` pair contributed by a rendered part. -/
def pairOf (pt : AttrPart) : Str × Str := (pt.1, pt.2.1)

/-- Rendering of the attribute-list tail after the first part. -/
def renderTail (rest : Str) : List AttrPart → Str
  | [] => rest
  | pt :: ps => ',' :: renderPart pt ++ renderTail rest ps

/-- A document whose parse is stable under re-serialization: its single media
line ends in a quoted attribute. -/
def c7t : Str :=
  toL "#EXTM3U\n#EXT-X-MEDIA:TYPE=AUDIO,GROUP-ID=\"g\"\n"

/-- The playlist that `parse_playlist c7t` produces. -/
def c7p : MasterPlaylist :=
  { independent_segments := false, variants := [],
    media := [{ track_type := some (toL "AUDIO"), group_id := some (toL "g"),
                name := none, language := none, default := none,
                autoselect := none, channels := none, uri := none }],
    frames := [] }

/-- A playlist whose two variants both lack `AVERAGE-BANDWIDTH` and `CODECS`
but differ elsewhere, so an order change under those sort keys would show. -/
def c8pl : MasterPlaylist :=
  { independent_segments := false, variants := [wV2, cxAudioSV], media := [],
    frames := [] }

/-! ## List and character utilities -/

theorem mem_takeWhile_mem {p : Char → Bool} {l : Str} {c : Char}
    (h : c ∈ l.takeWhile p) : c ∈ l := by
  induction l with
  | nil => simp [List.takeWhile] at h
  | cons a t ih =>
    rw [List.takeWhile] at h
    cases hp : p a with
    | true =>
      rw [hp] at h
      rcases List.mem_cons.mp h with h1 | h2
      · simp [h1]
      · exact List.mem_cons_of_mem _ (ih h2)
    | false => rw [hp] at h; simp at h

theorem takeWhile_all {p : Char → Bool} {l : Str}
    (h : ∀ c ∈ l, p c = true) : l.takeWhile p = l := by
  induction l with
  | nil => rfl
  | cons a t ih =>
    rw [List.takeWhile, h a (by simp)]
    simp only [List.cons.injEq, true_and]
    exact ih fun c hc => h c (List.mem_cons_of_mem _ hc)

theorem takeWhile_append_cons {p : Char → Bool} {a : Str} {b : Char} {t : Str}
    (ha : ∀ c ∈ a, p c = true) (hb : p b = false) :
    (a ++ b :: t).takeWhile p = a := by
  induction a with
  | nil => simp [List.takeWhile, hb]
  | cons x xs ih =>
    rw [List.cons_append, List.takeWhile, ha x (by simp)]
    simp only [List.cons.injEq, true_and]
    exact ih fun c hc => ha c (List.mem_cons_of_mem _ hc)

theorem dropWhile_all_false {p : Char → Bool} {l : Str}
    (h : ∀ c ∈ l, p c = false) : l.dropWhile p = l := by
  cases l with
  | nil => rfl
  | cons a t => rw [List.dropWhile, h a (by simp)]

theorem trimL_eq_self {l : Str} (h : ∀ c ∈ l, isWS c = false) : trimL l = l := by
  unfold trimL
  rw [dropWhile_all_false h, dropWhile_all_false (fun c hc => h c (by
    simpa using hc)), List.reverse_reverse]

theorem beginsWith_nil (s : Str) : beginsWith s [] = true := by
  cases s <;> rfl

theorem beginsWith_append (a r : Str) : beginsWith (a ++ r) a = true := by
  induction a with
  | nil => exact beginsWith_nil r
  | cons x xs ih => simp [beginsWith, ih]

theorem tagP_append (t : String) (r : Str) : tagP t (toL t ++ r) = some r := by
  unfold tagP
  rw [beginsWith_append]
  simp [List.drop_left]

theorem splitCh_no {ch : Char} {a : Str} (h : ∀ c ∈ a, c ≠ ch) :
    splitCh ch a = [a] := by
  induction a with
  | nil => rfl
  | cons x xs ih =>
    rw [splitCh, if_neg (by exact h x (by simp))]
    rw [ih fun c hc => h c (List.mem_cons_of_mem _ hc)]

theorem splitCh_append {ch : Char} {a b : Str} (h : ∀ c ∈ a, c ≠ ch) :
    splitCh ch (a ++ ch :: b) = a :: splitCh ch b := by
  induction a with
  | nil => simp [splitCh]
  | cons x xs ih =>
    rw [List.cons_append, splitCh, if_neg (by exact h x (by simp))]
    rw [ih fun c hc => h c (List.mem_cons_of_mem _ hc)]

/-! ## Decimal digits: `u32` printing round-trips through `parse_u32` -/

theorem digit_facts {c : Char} (h : c ∈ digitChars) :
    c.isDigit = true ∧ c ≠ '+' ∧ c ≠ ',' ∧ c ≠ '"' ∧ c ≠ '\n' ∧ c ≠ '\r' ∧
      c ≠ 'x' ∧ isWS c = false ∧ isKeyChar c = true := by
  simp only [digitChars, List.mem_cons, List.not_mem_nil, or_false] at h
  rcases h with rfl | rfl | rfl | rfl | rfl | rfl | rfl | rfl | rfl | rfl <;>
    exact (by decide)

theorem digitChar_mem {m : Nat} (h : m < 10) : Nat.digitChar m ∈ digitChars := by
  interval_cases m <;> decide

theorem digitChar_val {m : Nat} (h : m < 10) :
    (Nat.digitChar m).toNat = 48 + m := by
  interval_cases m <;> decide

theorem natDigitsRev_mem {f n : Nat} {c : Char} (h : c ∈ natDigitsRev f n) :
    c ∈ digitChars := by
  induction f generalizing n with
  | zero => simp [natDigitsRev] at h
  | succ f ih =>
    rw [natDigitsRev] at h
    by_cases hn : n < 10
    · rw [if_pos hn] at h
      simp at h
      exact h ▸ digitChar_mem hn
    · rw [if_neg hn] at h
      rcases List.mem_cons.mp h with h1 | h2
      · exact h1 ▸ digitChar_mem (Nat.mod_lt _ (by norm_num))
      · exact ih h2

/-- Value of a digit list read least-significant-digit-last via `foldr`. -/
theorem digitsToNat_reverse (l : Str) :
    digitsToNat l.reverse =
      l.foldr (fun c a => a * 10 + (c.toNat - '0'.toNat)) 0 := by
  unfold digitsToNat
  rw [List.foldl_reverse]

theorem natDigitsRev_val {f n : Nat} (h : n < 10 ^ f) :
    (natDigitsRev f n).foldr (fun c a => a * 10 + (c.toNat - '0'.toNat)) 0 = n := by
  induction f generalizing n with
  | zero => simp at h; simp [natDigitsRev, h]
  | succ f ih =>
    rw [natDigitsRev]
    have h0 : '0'.toNat = 48 := rfl
    by_cases hn : n < 10
    · rw [if_pos hn]
      simp only [List.foldr_cons, List.foldr_nil]
      rw [digitChar_val hn, h0]
      omega
    · rw [if_neg hn]
      rw [List.foldr_cons]
      have hdiv : n / 10 < 10 ^ f := by
        rw [Nat.div_lt_iff_lt_mul (by norm_num : 0 < 10)]
        calc n < 10 ^ (f + 1) := h
          _ = 10 ^ f * 10 := by rw [pow_succ]
      rw [ih hdiv, digitChar_val (Nat.mod_lt _ (by norm_num)), h0]
      have := Nat.div_add_mod n 10
      omega

theorem natToStr_mem {n : Nat} {c : Char} (h : c ∈ natToStr n) : c ∈ digitChars := by
  unfold natToStr at h
  exact natDigitsRev_mem (List.mem_reverse.mp h)

theorem natToStr_ne_nil (n : Nat) : natToStr n ≠ [] := by
  unfold natToStr natDigitsRev
  by_cases hn : n < 10 <;> simp [hn]

theorem natToStr_val (n : Nat) : digitsToNat (natToStr n) = n := by
  unfold natToStr
  rw [digitsToNat_reverse]
  exact natDigitsRev_val (lt_of_lt_of_le (Nat.lt_pow_self (by norm_num) n)
    (Nat.pow_le_pow_right (by norm_num) (Nat.le_succ n)))

theorem natToStr_head_ne {n : Nat} : (natToStr n).head? ≠ some '+' := by
  cases h : natToStr n with
  | nil => simp
  | cons c t =>
    have : c ∈ digitChars := natToStr_mem (h ▸ List.mem_cons_self c t)
    simp only [List.head?, ne_eq, Option.some.injEq]
    exact (digit_facts this).2.1

theorem parse_u32_natToStr {n : Nat} (h : n < 4294967296) :
    parse_u32 (natToStr n) = some n := by
  unfold parse_u32
  rw [if_neg natToStr_head_ne]
  rw [if_pos ⟨natToStr_ne_nil n, List.all_eq_true.mpr fun c hc =>
    (digit_facts (natToStr_mem hc)).1⟩]
  rw [natToStr_val]
  simp [h]

theorem natToStr_wfU (n : Nat) : wfUVal (natToStr n) := by
  refine ⟨natToStr_ne_nil n, ?_, ?_, ?_, ?_, ?_⟩
  · intro hc
    exact (digit_facts (natToStr_mem hc)).2.2.1 rfl
  · cases h : natToStr n with
    | nil => simp
    | cons c t =>
      have : c ∈ digitChars := natToStr_mem (h ▸ List.mem_cons_self c t)
      simp only [List.head?, ne_eq, Option.some.injEq]
      exact (digit_facts this).2.2.2.1
  · exact trimL_eq_self fun c hc => (digit_facts (natToStr_mem hc)).2.2.2.2.2.2.2.1
  · intro hc
    exact (digit_facts (natToStr_mem hc)).2.2.2.2.1 rfl
  · intro hc
    exact (digit_facts (natToStr_mem hc)).2.2.2.2.2.1 rfl

/-! ## Attribute values and pairs: rendering then parsing -/

theorem parse_quoted_render {v rest : Str} (hw : wfQVal v) :
    parse_quoted_string ('"' :: (v ++ '"' :: rest)) = some (rest, v) := by
  obtain ⟨hne, hq, -⟩ := hw
  have ht : List.takeWhile (fun c => decide (c ≠ '"')) (v ++ '"' :: rest) = v :=
    takeWhile_append_cons (fun c hc => decide_eq_true (fun h => hq (h ▸ hc)))
      (by simp)
  simp only [parse_quoted_string, List.head?, List.tail, ht]
  rw [if_pos trivial, if_neg hne, List.drop_left]
  rfl

theorem parse_unquoted_render_sep {v rest : Str} (hw : wfUVal v) :
    parse_unquoted_string (v ++ ',' :: rest) = some (',' :: rest, v) := by
  obtain ⟨hne, hc, -, htr, -⟩ := hw
  have ht : List.takeWhile (fun c => decide (c ≠ ',')) (v ++ ',' :: rest) = v :=
    takeWhile_append_cons (fun c hcm => decide_eq_true (fun h => hc (h ▸ hcm)))
      (by simp)
  simp only [parse_unquoted_string, ht]
  rw [if_neg hne, List.drop_left, htr]

theorem parse_unquoted_render_end {v : Str} (hw : wfUVal v) :
    parse_unquoted_string v = some ([], v) := by
  obtain ⟨hne, hc, -, htr, -⟩ := hw
  have ht : List.takeWhile (fun c => decide (c ≠ ',')) v = v :=
    takeWhile_all (fun c hcm => decide_eq_true (fun h => hc (h ▸ hcm)))
  simp only [parse_unquoted_string, ht]
  rw [if_neg hne, List.drop_length, htr]

theorem head_append_of_ne_nil {v : Str} (T : Str) (h : v ≠ []) :
    (v ++ T).head? = v.head? := by
  cases v with
  | nil => exact absurd rfl h
  | cons a t => rfl

theorem pqou_quoted {v rest : Str} (hw : wfQVal v) :
    parse_quoted_or_unquoted_string ('"' :: (v ++ '"' :: rest)) = some (rest, v) := by
  unfold parse_quoted_or_unquoted_string
  have hh : ('"' :: (v ++ '"' :: rest)).head? = some '"' := rfl
  rw [hh, if_pos rfl]
  exact parse_quoted_render hw

theorem pqou_unquoted_sep {v rest : Str} (hw : wfUVal v) :
    parse_quoted_or_unquoted_string (v ++ ',' :: rest) = some (',' :: rest, v) := by
  unfold parse_quoted_or_unquoted_string
  rw [head_append_of_ne_nil _ hw.1, if_neg hw.2.2.1]
  exact parse_unquoted_render_sep hw

theorem pqou_unquoted_end {v : Str} (hw : wfUVal v) :
    parse_quoted_or_unquoted_string v = some ([], v) := by
  unfold parse_quoted_or_unquoted_string
  rw [if_neg hw.2.2.1]
  exact parse_unquoted_render_end hw

theorem parse_key_render {k : Str} (r : Str) (h1 : k ≠ [])
    (h2 : ∀ c ∈ k, isKeyChar c = true) :
    parse_key (k ++ '=' :: r) = some ('=' :: r, k) := by
  have ht : List.takeWhile isKeyChar (k ++ '=' :: r) = k :=
    takeWhile_append_cons h2 (by decide)
  simp only [parse_key, ht]
  rw [if_neg h1, List.drop_left]

theorem tagP_eq (r : Str) : tagP "=" ('=' :: r) = some r := tagP_append "=" r

/-- Parsing one rendered `KEY=value` part followed by tail `T`; a bare part
must be followed by a separator or the end of input. -/
theorem parseKVPair_render {pt : AttrPart} {T : Str} (hw : wfPart pt)
    (hT : pt.2.2 = true ∨ T.head? = some ',' ∨ T = []) :
    parseKVPair (renderPart pt ++ T) = some (T, pairOf pt) := by
  obtain ⟨k, v, q⟩ := pt
  obtain ⟨hk1, hk2, -, hv⟩ := hw
  cases q with
  | true =>
    rw [if_pos rfl] at hv
    have hrw : renderPart (k, v, true) ++ T = k ++ '=' :: ('"' :: (v ++ '"' :: T)) := by
      simp [renderPart]
    rw [hrw]
    simp only [parseKVPair, parse_key_render _ hk1 hk2, tagP_eq, pqou_quoted hv,
      pairOf]
  | false =>
    rw [if_neg (by simp)] at hv
    simp only at hT
    have hrw : renderPart (k, v, false) ++ T = k ++ '=' :: (v ++ T) := by
      simp [renderPart]
    rcases hT with h | hsep | hnil
    · exact absurd h (by simp)
    · obtain ⟨X, rfl⟩ : ∃ X, T = ',' :: X := by
        cases T with
        | nil => simp at hsep
        | cons a t =>
          simp only [List.head?, Option.some.injEq] at hsep
          exact ⟨t, by rw [hsep]⟩
      rw [hrw]
      simp only [parseKVPair, parse_key_render _ hk1 hk2, tagP_eq,
        pqou_unquoted_sep hv, pairOf]
    · subst hnil
      rw [hrw, List.append_nil]
      simp only [parseKVPair, parse_key_render _ hk1 hk2, tagP_eq,
        pqou_unquoted_end hv, pairOf]

/-! ## The `separated_list1` loop on rendered attribute lists -/

theorem kvLoop_stop {f : Nat} {s : Str} {acc : List (Str × Str)}
    (h : s.head? ≠ some ',') : kvLoop (f + 1) s acc = some (s, acc) := by
  rw [kvLoop, if_neg h]

theorem kvLoop_cons {f : Nat} {s s' : Str} {acc : List (Str × Str)}
    {p : Str × Str} (h : parseKVPair s = some (s', p)) :
    kvLoop (f + 1) (',' :: s) acc = kvLoop f s' (acc ++ [p]) := by
  rw [kvLoop]
  have hh : (',' :: s).head? = some ',' := rfl
  rw [hh, if_pos rfl]
  simp [h]

theorem renderTail_head {rest : Str} {ps : List AttrPart} (h : ps ≠ []) :
    (renderTail rest ps).head? = some ',' := by
  cases ps with
  | nil => exact absurd rfl h
  | cons pt ps => rfl

theorem renderTail_length (rest : Str) (ps : List AttrPart) :
    ps.length ≤ (renderTail rest ps).length := by
  induction ps with
  | nil => simp [renderTail]
  | cons pt ps ih =>
    simp only [renderTail, List.length_cons, List.length_append]
    omega

theorem kvLoop_render (ps : List AttrPart) (f : Nat) (acc : List (Str × Str))
    (rest : Str) (hw : ∀ pt ∈ ps, wfPart pt) (hOK : partsOK ps rest) :
    kvLoop (f + (ps.length + 1)) (renderTail rest ps) acc =
      some (rest, acc ++ ps.map pairOf) := by
  induction ps generalizing acc f with
  | nil =>
    simp only [renderTail, List.map_nil, List.append_nil, List.length_nil]
    exact kvLoop_stop hOK
  | cons pt ps ih =>
    obtain ⟨k, v, q⟩ := pt
    obtain ⟨hq, hOK'⟩ := hOK
    have hpair : parseKVPair (renderPart (k, v, q) ++ renderTail rest ps) =
        some (renderTail rest ps, pairOf (k, v, q)) := by
      refine parseKVPair_render (hw _ (by simp)) ?_
      rcases hq with h | h | h
      · left; exact h
      · right; left; exact renderTail_head h
      · subst h
        cases ps with
        | nil => right; right; rfl
        | cons a b => right; left; exact renderTail_head (by simp)
    have hf : f + (((k, v, q) :: ps).length + 1) = (f + (ps.length + 1)) + 1 := by
      simp only [List.length_cons]; omega
    rw [hf]
    show kvLoop ((f + (ps.length + 1)) + 1)
      (',' :: (renderPart (k, v, q) ++ renderTail rest ps)) acc = _
    rw [kvLoop_cons hpair]
    rw [ih f _ (fun x hx => hw x (List.mem_cons_of_mem _ hx)) hOK']
    simp

theorem joinComma_renderTail (ps : List AttrPart) (pt0 : AttrPart) (rest : Str) :
    joinComma ((pt0 :: ps).map renderPart) ++ rest =
      renderPart pt0 ++ renderTail rest ps := by
  induction ps generalizing pt0 with
  | nil => simp [joinComma, renderTail]
  | cons pt1 ps ih =>
    show joinComma (renderPart pt0 :: (pt1 :: ps).map renderPart) ++ rest = _
    rw [joinComma]
    · simp only [List.append_assoc, List.cons_append]
      rw [show (',' :: (joinComma (List.map renderPart (pt1 :: ps)) ++ rest) : Str) =
        ',' :: (renderPart pt1 ++ renderTail rest ps) from by rw [ih pt1]]
      rfl
    · simp

theorem kvList_render {pt0 : AttrPart} {ps : List AttrPart} {rest : Str}
    (hw : ∀ pt ∈ pt0 :: ps, wfPart pt) (hOK : partsOK (pt0 :: ps) rest) :
    kvList (joinComma ((pt0 :: ps).map renderPart) ++ rest) =
      some (rest, (pt0 :: ps).map pairOf) := by
  obtain ⟨k, v, q⟩ := pt0
  obtain ⟨hq, hOK'⟩ := hOK
  have hpair : parseKVPair (renderPart (k, v, q) ++ renderTail rest ps) =
      some (renderTail rest ps, pairOf (k, v, q)) := by
    refine parseKVPair_render (hw _ (by simp)) ?_
    rcases hq with h | h | h
    · left; exact h
    · right; left; exact renderTail_head h
    · subst h
      cases ps with
      | nil => right; right; rfl
      | cons a b => right; left; exact renderTail_head (by simp)
  rw [joinComma_renderTail]
  unfold kvList
  rw [hpair]
  show kvLoop ((renderTail rest ps).length + 1) (renderTail rest ps)
    [pairOf (k, v, q)] = _
  have hf : (renderTail rest ps).length + 1 =
      ((renderTail rest ps).length - ps.length) + (ps.length + 1) := by
    have := renderTail_length rest ps
    omega
  rw [hf, kvLoop_render ps _ [pairOf (k, v, q)] rest
    (fun x hx => hw x (List.mem_cons_of_mem _ hx)) hOK']
  simp

/-! ## Folding rendered attribute pairs recovers the record -/

theorem mt_step_type (m : MediaTrack) (v : Str) :
    applyMediaPair m (toL "TYPE", v) = { m with track_type := some v } := rfl

theorem mt_step_group (m : MediaTrack) (v : Str) :
    applyMediaPair m (toL "GROUP-ID", v) = { m with group_id := some v } := rfl

theorem mt_step_name (m : MediaTrack) (v : Str) :
    applyMediaPair m (toL "NAME", v) = { m with name := some v } := rfl

theorem mt_step_language (m : MediaTrack) (v : Str) :
    applyMediaPair m (toL "LANGUAGE", v) = { m with language := some v } := rfl

theorem mt_step_default (m : MediaTrack) (v : Str) :
    applyMediaPair m (toL "DEFAULT", v) = { m with default := some v } := rfl

theorem mt_step_autoselect (m : MediaTrack) (v : Str) :
    applyMediaPair m (toL "AUTOSELECT", v) = { m with autoselect := some v } := rfl

theorem mt_step_channels (m : MediaTrack) (v : Str) :
    applyMediaPair m (toL "CHANNELS", v) = { m with channels := some v } := rfl

theorem mt_step_uri (m : MediaTrack) (v : Str) :
    applyMediaPair m (toL "URI", v) = { m with uri := some v } := rfl

set_option maxHeartbeats 1600000 in
theorem foldMT_render (m : MediaTrack) :
    List.foldl applyMediaPair initMT ((mtParts m).map pairOf) = m := by
  obtain ⟨t, g, n, lg, d, a, c, u⟩ := m
  rcases t with _ | tv <;> rcases g with _ | gv <;> rcases n with _ | nv <;>
    rcases lg with _ | lv <;> rcases d with _ | dv <;> rcases a with _ | av <;>
    rcases c with _ | cv <;> rcases u with _ | uv <;>
    simp_all only [mtParts, optPart, initMT, List.cons_append, List.nil_append,
      List.append_nil, List.map, List.foldl, pairOf, mt_step_type,
      mt_step_group, mt_step_name, mt_step_language, mt_step_default,
      mt_step_autoselect, mt_step_channels, mt_step_uri]

theorem sv_step_bandwidth (sv : StreamVariant) {b : Nat} (hb : wfU32 b) :
    applyStreamPair sv (toL "BANDWIDTH", natToStr b) = { sv with bandwidth := b } := by
  show { sv with bandwidth := (parse_u32 (natToStr b)).getD 0 } = _
  rw [parse_u32_natToStr hb]
  rfl

theorem sv_step_avg (sv : StreamVariant) {b : Nat} (hb : wfU32 b) :
    applyStreamPair sv (toL "AVERAGE-BANDWIDTH", natToStr b) =
      { sv with average_bandwidth := some b } := by
  show { sv with average_bandwidth := some ((parse_u32 (natToStr b)).getD 0) } = _
  rw [parse_u32_natToStr hb]
  rfl

theorem sv_step_codecs (sv : StreamVariant) (v : Str) :
    applyStreamPair sv (toL "CODECS", v) = { sv with codecs := some v } := rfl

theorem splitCh_res (w h : Nat) :
    splitCh 'x' (natToStr w ++ 'x' :: natToStr h) = [natToStr w, natToStr h] := by
  rw [splitCh_append (fun c hc => (digit_facts (natToStr_mem hc)).2.2.2.2.2.2.1)]
  rw [splitCh_no (fun c hc => (digit_facts (natToStr_mem hc)).2.2.2.2.2.2.1)]

theorem sv_step_res (sv : StreamVariant) {w h : Nat} (hw : wfU32 w) (hh : wfU32 h) :
    applyStreamPair sv (toL "RESOLUTION", natToStr w ++ 'x' :: natToStr h) =
      { sv with resolution := some (w, h) } := by
  simp only [applyStreamPair]
  rw [if_neg (show (toL "RESOLUTION" : Str) ≠ toL "BANDWIDTH" by decide)]
  rw [if_neg (show (toL "RESOLUTION" : Str) ≠ toL "AVERAGE-BANDWIDTH" by decide)]
  rw [if_neg (show (toL "RESOLUTION" : Str) ≠ toL "CODECS" by decide)]
  rw [splitCh_res]
  simp [parse_u32_natToStr hw, parse_u32_natToStr hh]

theorem sv_step_fr (sv : StreamVariant) {x : Rat}
    (hx : parse_f32 (fmtF32 x) = some x) :
    applyStreamPair sv (toL "FRAME-RATE", fmtF32 x) =
      { sv with frame_rate := some x } := by
  show { sv with frame_rate := some ((parse_f32 (fmtF32 x)).getD 0) } = _
  rw [hx]
  rfl

theorem sv_step_vr (sv : StreamVariant) (v : Str) :
    applyStreamPair sv (toL "VIDEO-RANGE", v) = { sv with video_range := some v } := rfl

theorem sv_step_audio (sv : StreamVariant) (v : Str) :
    applyStreamPair sv (toL "AUDIO", v) = { sv with audio := some v } := rfl

theorem sv_step_cc (sv : StreamVariant) (v : Str) :
    applyStreamPair sv (toL "CLOSED-CAPTIONS", v) =
      { sv with closed_captions := some v } := rfl

theorem foldSV_render (v : StreamVariant) (hWF : WFsv v) :
    List.foldl applyStreamPair initSV ((svParts v).map pairOf) = { v with uri := [] } := by
  obtain ⟨b, avg, cod, res, fr, vr, au, cc, u⟩ := v
  obtain ⟨h1, h2, h3, h4, h5, h6, h7, h8, h9⟩ := hWF
  rcases avg with _ | a <;> rcases cod with _ | cv <;>
    rcases res with _ | ⟨w, hgt⟩ <;> rcases fr with _ | x <;>
    rcases vr with _ | vv <;> rcases au with _ | av <;> rcases cc with _ | ccv <;>
    simp_all only [wfOptU32, wfOptQ, wfOptU, wfRes, wfFR, svParts, optPart,
      initSV, List.cons_append, List.nil_append, List.append_nil, List.map,
      List.foldl, pairOf, sv_step_bandwidth, sv_step_avg, sv_step_codecs,
      sv_step_res, sv_step_fr, sv_step_vr, sv_step_audio, sv_step_cc]

theorem if_step_bandwidth (fr : IFrameStream) {b : Nat} (hb : wfU32 b) :
    applyIFramePair fr (toL "BANDWIDTH", natToStr b) = { fr with bandwidth := b } := by
  show { fr with bandwidth := (parse_u32 (natToStr b)).getD 0 } = _
  rw [parse_u32_natToStr hb]
  rfl

theorem if_step_codecs (fr : IFrameStream) (v : Str) :
    applyIFramePair fr (toL "CODECS", v) = { fr with codecs := some v } := rfl

theorem if_step_res (fr : IFrameStream) {w h : Nat} (hw : wfU32 w) (hh : wfU32 h) :
    applyIFramePair fr (toL "RESOLUTION", natToStr w ++ 'x' :: natToStr h) =
      { fr with resolution := some (w, h) } := by
  simp only [applyIFramePair]
  rw [if_neg (show (toL "RESOLUTION" : Str) ≠ toL "BANDWIDTH" by decide)]
  rw [if_neg (show (toL "RESOLUTION" : Str) ≠ toL "CODECS" by decide)]
  rw [splitCh_res]
  simp [parse_u32_natToStr hw, parse_u32_natToStr hh]

theorem if_step_vr (fr : IFrameStream) (v : Str) :
    applyIFramePair fr (toL "VIDEO-RANGE", v) = { fr with video_range := some v } := rfl

theorem if_step_uri (fr : IFrameStream) (v : Str) :
    applyIFramePair fr (toL "URI", v) = { fr with uri := v } := rfl

theorem foldIF_render (fr : IFrameStream) (hWF : WFif fr) :
    List.foldl applyIFramePair initIF ((ifParts fr).map pairOf) = fr := by
  obtain ⟨b, cod, res, vr, u⟩ := fr
  obtain ⟨h1, h2, h3, h4, h5⟩ := hWF
  rcases cod with _ | cv <;> rcases res with _ | ⟨w, hgt⟩ <;>
    rcases vr with _ | vv <;>
    simp_all only [wfOptQ, wfOptU, wfRes, ifParts, optPart, initIF,
      List.cons_append, List.nil_append, List.append_nil, List.map, List.foldl,
      pairOf, if_step_bandwidth, if_step_codecs, if_step_res, if_step_vr,
      if_step_uri]

/-! ## Well-formedness of rendered parts -/

theorem mem_optPart {pt : AttrPart} {k : String} {q : Bool} {o : Option Str}
    (h : pt ∈ optPart k q o) : ∃ v, o = some v ∧ pt = (toL k, v, q) := by
  cases o with
  | none => simp [optPart] at h
  | some v =>
    simp only [optPart, List.mem_singleton] at h
    exact ⟨v, rfl, h⟩

theorem wfPart_quoted {k : String} {v : Str}
    (hk1 : (toL k : Str) ≠ []) (hk2 : ∀ c ∈ (toL k : Str), isKeyChar c = true)
    (hk3 : noNL (toL k)) (hv : wfQVal v) : wfPart (toL k, v, true) := by
  refine ⟨hk1, hk2, hk3, ?_⟩
  simpa using hv

theorem wfPart_unquoted {k : String} {v : Str}
    (hk1 : (toL k : Str) ≠ []) (hk2 : ∀ c ∈ (toL k : Str), isKeyChar c = true)
    (hk3 : noNL (toL k)) (hv : wfUVal v) : wfPart (toL k, v, false) := by
  refine ⟨hk1, hk2, hk3, ?_⟩
  simpa using hv

theorem mtParts_wf {m : MediaTrack} (hm : WFmt m) : ∀ pt ∈ mtParts m, wfPart pt := by
  obtain ⟨h1, h2, h3, h4, h5, h6, h7, h8, -⟩ := hm
  intro pt h
  unfold mtParts at h
  rcases List.mem_append.mp h with h | h
  rotate_left
  · obtain ⟨v, hv, rfl⟩ := mem_optPart h
    exact wfPart_quoted (by decide) (by decide) (by decide)
      (by rw [hv] at h8; simpa [wfOptQ] using h8)
  rcases List.mem_append.mp h with h | h
  rotate_left
  · obtain ⟨v, hv, rfl⟩ := mem_optPart h
    exact wfPart_quoted (by decide) (by decide) (by decide)
      (by rw [hv] at h7; simpa [wfOptQ] using h7)
  rcases List.mem_append.mp h with h | h
  rotate_left
  · obtain ⟨v, hv, rfl⟩ := mem_optPart h
    exact wfPart_unquoted (by decide) (by decide) (by decide)
      (by rw [hv] at h6; simpa [wfOptU] using h6)
  rcases List.mem_append.mp h with h | h
  rotate_left
  · obtain ⟨v, hv, rfl⟩ := mem_optPart h
    exact wfPart_unquoted (by decide) (by decide) (by decide)
      (by rw [hv] at h5; simpa [wfOptU] using h5)
  rcases List.mem_append.mp h with h | h
  rotate_left
  · obtain ⟨v, hv, rfl⟩ := mem_optPart h
    exact wfPart_quoted (by decide) (by decide) (by decide)
      (by rw [hv] at h4; simpa [wfOptQ] using h4)
  rcases List.mem_append.mp h with h | h
  rotate_left
  · obtain ⟨v, hv, rfl⟩ := mem_optPart h
    exact wfPart_quoted (by decide) (by decide) (by decide)
      (by rw [hv] at h3; simpa [wfOptQ] using h3)
  rcases List.mem_append.mp h with h | h
  · obtain ⟨v, hv, rfl⟩ := mem_optPart h
    exact wfPart_unquoted (by decide) (by decide) (by decide)
      (by rw [hv] at h1; simpa [wfOptU] using h1)
  · obtain ⟨v, hv, rfl⟩ := mem_optPart h
    exact wfPart_quoted (by decide) (by decide) (by decide)
      (by rw [hv] at h2; simpa [wfOptQ] using h2)

theorem res_val_wfU (w h : Nat) : wfUVal (natToStr w ++ 'x' :: natToStr h) := by
  have hmem : ∀ c ∈ natToStr w ++ 'x' :: natToStr h, c ∈ digitChars ∨ c = 'x' := by
    intro c hc
    rcases List.mem_append.mp hc with hc | hc
    · exact Or.inl (natToStr_mem hc)
    · rcases List.mem_cons.mp hc with hc | hc
      · exact Or.inr hc
      · exact Or.inl (natToStr_mem hc)
  refine ⟨by simp, ?_, ?_, ?_, ?_, ?_⟩
  · intro hc
    rcases hmem _ hc with hd | hd
    · exact (digit_facts hd).2.2.1 rfl
    · exact absurd hd (by decide)
  · rw [head_append_of_ne_nil _ (natToStr_ne_nil w)]
    exact (natToStr_wfU w).2.2.1
  · refine trimL_eq_self fun c hc => ?_
    rcases hmem _ hc with hd | hd
    · exact (digit_facts hd).2.2.2.2.2.2.2.1
    · rw [hd]; decide
  · intro hc
    rcases hmem _ hc with hd | hd
    · exact (digit_facts hd).2.2.2.2.1 rfl
    · exact absurd hd (by decide)
  · intro hc
    rcases hmem _ hc with hd | hd
    · exact (digit_facts hd).2.2.2.2.2.1 rfl
    · exact absurd hd (by decide)

theorem svParts_wf {v : StreamVariant} (hv : WFsv v) :
    ∀ pt ∈ svParts v, wfPart pt := by
  obtain ⟨b, avg, cod, res, fr, vr, au, cc, u⟩ := v
  obtain ⟨h1, h2, h3, h4, h5, h6, h7, h8, h9⟩ := hv
  intro pt h
  unfold svParts at h
  rcases List.mem_append.mp h with h | h
  rotate_left
  · obtain ⟨w, hw, rfl⟩ := mem_optPart h
    exact wfPart_unquoted (by decide) (by decide) (by decide)
      (by rw [hw] at h8; simpa [wfOptU] using h8)
  rcases List.mem_append.mp h with h | h
  rotate_left
  · obtain ⟨w, hw, rfl⟩ := mem_optPart h
    exact wfPart_quoted (by decide) (by decide) (by decide)
      (by rw [hw] at h7; simpa [wfOptQ] using h7)
  rcases List.mem_append.mp h with h | h
  rotate_left
  · obtain ⟨w, hw, rfl⟩ := mem_optPart h
    exact wfPart_unquoted (by decide) (by decide) (by decide)
      (by rw [hw] at h6; simpa [wfOptU] using h6)
  rcases List.mem_append.mp h with h | h
  rotate_left
  · rcases hfr : fr with _ | x
    · rw [hfr] at h; simp at h
    · rw [hfr] at h
      rcases List.mem_singleton.mp h with rfl
      rw [hfr] at h5
      exact wfPart_unquoted (by decide) (by decide) (by decide) h5.2
  rcases List.mem_append.mp h with h | h
  rotate_left
  · rcases hres : res with _ | ⟨w, hgt⟩
    · rw [hres] at h; simp at h
    · rw [hres] at h
      rcases List.mem_singleton.mp h with rfl
      exact wfPart_unquoted (by decide) (by decide) (by decide) (res_val_wfU w hgt)
  rcases List.mem_append.mp h with h | h
  rotate_left
  · obtain ⟨w, hw, rfl⟩ := mem_optPart h
    exact wfPart_quoted (by decide) (by decide) (by decide)
      (by rw [hw] at h3; simpa [wfOptQ] using h3)
  rcases List.mem_append.mp h with h | h
  · rcases List.mem_singleton.mp h with rfl
    exact wfPart_unquoted (by decide) (by decide) (by decide) (natToStr_wfU b)
  · rcases havg : avg with _ | a
    · rw [havg] at h; simp at h
    · rw [havg] at h
      rcases List.mem_singleton.mp h with rfl
      rw [havg] at h2
      exact wfPart_unquoted (by decide) (by decide) (by decide) (natToStr_wfU a)

theorem ifParts_wf {fr : IFrameStream} (hf : WFif fr) :
    ∀ pt ∈ ifParts fr, wfPart pt := by
  obtain ⟨b, cod, res, vr, u⟩ := fr
  obtain ⟨h1, h2, h3, h4, h5⟩ := hf
  intro pt h
  unfold ifParts at h
  rcases List.mem_append.mp h with h | h
  rotate_left
  · rcases List.mem_singleton.mp h with rfl
    exact wfPart_quoted (by decide) (by decide) (by decide) h5
  rcases List.mem_append.mp h with h | h
  rotate_left
  · obtain ⟨w, hw, rfl⟩ := mem_optPart h
    exact wfPart_unquoted (by decide) (by decide) (by decide)
      (by rw [hw] at h4; simpa [wfOptU] using h4)
  rcases List.mem_append.mp h with h | h
  rotate_left
  · rcases hres : res with _ | ⟨w, hgt⟩
    · rw [hres] at h; simp at h
    · rw [hres] at h
      rcases List.mem_singleton.mp h with rfl
      exact wfPart_unquoted (by decide) (by decide) (by decide) (res_val_wfU w hgt)
  rcases List.mem_append.mp h with h | h
  · rcases List.mem_singleton.mp h with rfl
    exact wfPart_unquoted (by decide) (by decide) (by decide) (natToStr_wfU b)
  · obtain ⟨w, hw, rfl⟩ := mem_optPart h
    exact wfPart_quoted (by decide) (by decide) (by decide)
      (by rw [hw] at h2; simpa [wfOptQ] using h2)

/-! ## Stopping conditions for the attribute loop, and line isolation -/

theorem partsOK_nil_rest (ps : List AttrPart) : partsOK ps [] := by
  induction ps with
  | nil => simp [partsOK]
  | cons pt ps ih =>
    obtain ⟨k, v, q⟩ := pt
    exact ⟨Or.inr (Or.inr rfl), ih⟩

theorem partsOK_of_lastQ {ps : List AttrPart} {rest : Str}
    (hl : match ps.getLast? with
          | some (_, _, true) => True
          | _ => False)
    (hr : rest.head? ≠ some ',') : partsOK ps rest := by
  induction ps with
  | nil => exact hr
  | cons pt ps ih =>
    obtain ⟨k, v, q⟩ := pt
    cases ps with
    | nil =>
      cases q with
      | false => simp [List.getLast?] at hl
      | true =>
        exact ⟨Or.inl rfl, hr⟩
    | cons pt2 tl =>
      rw [List.getLast?_cons_cons] at hl
      exact ⟨Or.inr (Or.inl (by simp)), ih hl⟩

theorem joinComma_cons_cons (x y : Str) (ys : List Str) :
    joinComma (x :: y :: ys) = x ++ ',' :: joinComma (y :: ys) := rfl

theorem joinComma_mem {c : Char} {l : List Str} (h : c ∈ joinComma l) :
    (∃ x ∈ l, c ∈ x) ∨ c = ',' := by
  induction l with
  | nil => simp [joinComma] at h
  | cons x xs ih =>
    cases xs with
    | nil =>
      rw [joinComma] at h
      exact Or.inl ⟨x, by simp, h⟩
    | cons y ys =>
      rw [joinComma_cons_cons] at h
      rcases List.mem_append.mp h with h | h
      · exact Or.inl ⟨x, by simp, h⟩
      · rcases List.mem_cons.mp h with h | h
        · exact Or.inr h
        · rcases ih h with ⟨z, hz, hc⟩ | h
          · exact Or.inl ⟨z, List.mem_cons_of_mem _ hz, hc⟩
          · exact Or.inr h

theorem renderPart_mem {c : Char} {pt : AttrPart} (h : c ∈ renderPart pt) :
    c ∈ pt.1 ∨ c = '=' ∨ c = '"' ∨ c ∈ pt.2.1 := by
  obtain ⟨k, v, q⟩ := pt
  cases q with
  | true =>
    simp only [renderPart] at h
    rcases List.mem_append.mp h with h | h
    · exact Or.inl h
    · rcases List.mem_cons.mp h with h | h
      · exact Or.inr (Or.inl h)
      · rcases List.mem_cons.mp h with h | h
        · exact Or.inr (Or.inr (Or.inl h))
        · rcases List.mem_append.mp h with h | h
          · exact Or.inr (Or.inr (Or.inr h))
          · rcases List.mem_singleton.mp h with rfl
            exact Or.inr (Or.inr (Or.inl rfl))
  | false =>
    simp only [renderPart] at h
    rcases List.mem_append.mp h with h | h
    · exact Or.inl h
    · rcases List.mem_cons.mp h with h | h
      · exact Or.inr (Or.inl h)
      · exact Or.inr (Or.inr (Or.inr h))

theorem wfPart_val_noNL {pt : AttrPart} (hw : wfPart pt) : noNL pt.2.1 := by
  obtain ⟨k, v, q⟩ := pt
  obtain ⟨-, -, -, hv⟩ := hw
  cases q with
  | true => exact (by simpa using hv : wfQVal v).2.2
  | false => exact (by simpa using hv : wfUVal v).2.2.2.2

theorem section_noNL {parts : List AttrPart} (hw : ∀ pt ∈ parts, wfPart pt) :
    noNL (joinComma (parts.map renderPart)) := by
  have key : ∀ c, (c = '\n' ∨ c = '\r') →
      c ∉ joinComma (parts.map renderPart) := by
    intro c hcnl hc
    rcases joinComma_mem hc with ⟨x, hx, hcx⟩ | hcomma
    · obtain ⟨pt, hpt, rfl⟩ := List.mem_map.mp hx
      have hwp := hw pt hpt
      have hknl : noNL pt.1 := by
        obtain ⟨k, v, q⟩ := pt
        exact hwp.2.2.1
      have hvnl : noNL pt.2.1 := wfPart_val_noNL hwp
      rcases renderPart_mem hcx with h | h | h | h
      · rcases hcnl with rfl | rfl
        · exact hknl.1 h
        · exact hknl.2 h
      · rcases hcnl with rfl | rfl <;> exact absurd h (by decide)
      · rcases hcnl with rfl | rfl <;> exact absurd h (by decide)
      · rcases hcnl with rfl | rfl
        · exact hvnl.1 h
        · exact hvnl.2 h
    · rcases hcnl with rfl | rfl <;> exact absurd hcomma (by decide)
  exact ⟨key '\n' (Or.inl rfl), key '\r' (Or.inr rfl)⟩

theorem notLineEnding_split {a rest : Str} (h : noNL a) :
    notLineEnding (a ++ '\n' :: rest) = some ('\n' :: rest, a) := by
  have ht : List.takeWhile (fun c => c ≠ '\r' && c ≠ '\n') (a ++ '\n' :: rest) = a := by
    refine takeWhile_append_cons (fun c hc => ?_) (by decide)
    have h1 : c ≠ '\n' := fun hh => h.1 (hh ▸ hc)
    have h2 : c ≠ '\r' := fun hh => h.2 (hh ▸ hc)
    simp [h1, h2]
  simp only [notLineEnding, ht]
  rw [List.drop_left]
  rfl

theorem notLineEnding_all {a : Str} (h : noNL a) :
    notLineEnding a = some ([], a) := by
  have ht : List.takeWhile (fun c => c ≠ '\r' && c ≠ '\n') a = a := by
    refine takeWhile_all (fun c hc => ?_)
    have h1 : c ≠ '\n' := fun hh => h.1 (hh ▸ hc)
    have h2 : c ≠ '\r' := fun hh => h.2 (hh ▸ hc)
    simp [h1, h2]
  simp only [notLineEnding, ht]
  rw [List.drop_length]
  rfl

/-! ## Per-record round trips: parsing a rendered record recovers it -/

theorem svParts_ne_nil (v : StreamVariant) : svParts v ≠ [] := by
  unfold svParts
  simp

theorem ifParts_ne_nil (fr : IFrameStream) : ifParts fr ≠ [] := by
  unfold ifParts
  simp

theorem lineEnding_cons (r : Str) : lineEnding ('\n' :: r) = some r := rfl

theorem parse_media_track_render {m : MediaTrack} (hm : WFmt m) {rest : Str}
    (hOK : partsOK (mtParts m) rest) :
    parse_media_track (renderMediaTrack m ++ rest) = some (rest, m) := by
  obtain ⟨pt0, ps, hps⟩ :=
    List.exists_cons_of_ne_nil hm.2.2.2.2.2.2.2.2
  simp only [parse_media_track, renderMediaTrack, List.append_assoc, tagP_append,
    hps, kvList_render (hps ▸ mtParts_wf hm) (hps ▸ hOK)]
  rw [← hps, foldMT_render]

theorem parse_stream_variant_render {v : StreamVariant} (hv : WFsv v) {T : Str}
    (hT : T = [] ∨ ∃ r, T = '\n' :: r) :
    parse_stream_variant (renderStreamVariant v ++ T) = some (T, v) := by
  obtain ⟨pt0, ps, hps⟩ := List.exists_cons_of_ne_nil (svParts_ne_nil v)
  have hkv : kvList (joinComma ((svParts v).map renderPart)) =
      some ([], (svParts v).map pairOf) := by
    have h0 := kvList_render (hps ▸ svParts_wf hv) (partsOK_nil_rest (pt0 :: ps))
    rw [List.append_nil] at h0
    rw [hps, h0]
  have hshape : renderStreamVariant v ++ T =
      toL "#EXT-X-STREAM-INF:" ++ ((joinComma ((svParts v).map renderPart)) ++
        '\n' :: (v.uri ++ T)) := by
    simp [renderStreamVariant, List.append_assoc]
  rw [hshape]
  simp only [parse_stream_variant, tagP_append,
    notLineEnding_split (section_noNL (svParts_wf hv)), hkv,
    foldSV_render v hv, lineEnding_cons, parse_uri]
  have h9 : noNL v.uri := hv.2.2.2.2.2.2.2.2
  rcases hT with rfl | ⟨r, rfl⟩
  · rw [List.append_nil, notLineEnding_all h9]
  · rw [notLineEnding_split h9]

theorem parse_iframe_stream_render {fr : IFrameStream} (hf : WFif fr) {T : Str}
    (hT : T = [] ∨ ∃ r, T = '\n' :: r) :
    parse_iframe_stream (renderIFrameStream fr ++ T) = some (T, fr) := by
  obtain ⟨pt0, ps, hps⟩ := List.exists_cons_of_ne_nil (ifParts_ne_nil fr)
  have hsect : noNL (joinComma ((ifParts fr).map renderPart)) :=
    section_noNL (ifParts_wf hf)
  have hNL : notLineEnding (joinComma ((ifParts fr).map renderPart) ++ T) =
      some (T, joinComma ((ifParts fr).map renderPart)) := by
    rcases hT with rfl | ⟨r, rfl⟩
    · rw [List.append_nil, notLineEnding_all hsect]
    · rw [notLineEnding_split hsect]
  have hkv : kvList (joinComma ((ifParts fr).map renderPart)) =
      some ([], (ifParts fr).map pairOf) := by
    have h0 := kvList_render (hps ▸ ifParts_wf hf) (partsOK_nil_rest (pt0 :: ps))
    rw [List.append_nil] at h0
    rw [hps, h0]
  simp only [parse_iframe_stream, renderIFrameStream, List.append_assoc,
    tagP_append, hNL, hkv, foldIF_render fr hf]

/-! ## The tag loop on a rendered document -/

theorem bw_media_not_iframe (J R : Str) :
    beginsWith ((toL "#EXT-X-MEDIA:" ++ J) ++ R)
      (toL "#EXT-X-I-FRAME-STREAM-INF") = false := rfl

theorem bw_media_not_stream (J R : Str) :
    beginsWith ((toL "#EXT-X-MEDIA:" ++ J) ++ R)
      (toL "#EXT-X-STREAM-INF") = false := rfl

theorem bw_media_yes (J R : Str) :
    beginsWith ((toL "#EXT-X-MEDIA:" ++ J) ++ R) (toL "#EXT-X-MEDIA") = true := rfl

theorem bw_stream_not_iframe (J N R : Str) :
    beginsWith (((toL "#EXT-X-STREAM-INF:" ++ J) ++ N) ++ R)
      (toL "#EXT-X-I-FRAME-STREAM-INF") = false := rfl

theorem bw_stream_yes (J N R : Str) :
    beginsWith (((toL "#EXT-X-STREAM-INF:" ++ J) ++ N) ++ R)
      (toL "#EXT-X-STREAM-INF") = true := rfl

theorem bw_iframe_yes (J R : Str) :
    beginsWith ((toL "#EXT-X-I-FRAME-STREAM-INF:" ++ J) ++ R)
      (toL "#EXT-X-I-FRAME-STREAM-INF") = true := rfl

theorem tagLoop_end (f : Nat) (vs : List StreamVariant) (ms : List MediaTrack)
    (fs : List IFrameStream) : tagLoop (f + 1) [] vs ms fs = some (vs, ms, fs) := rfl

theorem tagLoop_blank (f : Nat) (rest : Str) (vs : List StreamVariant)
    (ms : List MediaTrack) (fs : List IFrameStream) :
    tagLoop (f + 1) ('\n' :: rest) vs ms fs = tagLoop f rest vs ms fs := rfl

theorem tagLoop_media {f : Nat} {m : MediaTrack} (hm : WFmt m) (hl : lastQuoted m)
    {rest : Str} (vs : List StreamVariant) (ms : List MediaTrack)
    (fs : List IFrameStream) :
    tagLoop (f + 1) (renderMediaTrack m ++ '\n' :: rest) vs ms fs =
      tagLoop f ('\n' :: rest) vs (ms ++ [m]) fs := by
  have hOK : partsOK (mtParts m) ('\n' :: rest) := partsOK_of_lastQ hl (by simp)
  have hpm := parse_media_track_render hm hOK
  have hne : renderMediaTrack m ++ '\n' :: rest ≠ [] := by
    simp [renderMediaTrack, toL]
  rw [tagLoop, if_neg hne]
  simp only [renderMediaTrack] at hpm ⊢
  rw [bw_media_not_iframe, bw_media_not_stream, bw_media_yes]
  simp only [Bool.false_eq_true, if_false, if_true, hpm]

theorem tagLoop_variant {f : Nat} {v : StreamVariant} (hv : WFsv v)
    {rest : Str} (vs : List StreamVariant) (ms : List MediaTrack)
    (fs : List IFrameStream) :
    tagLoop (f + 1) (renderStreamVariant v ++ '\n' :: rest) vs ms fs =
      tagLoop f ('\n' :: rest) (vs ++ [v]) ms fs := by
  have hpv := parse_stream_variant_render hv (T := '\n' :: rest)
    (Or.inr ⟨rest, rfl⟩)
  have hne : renderStreamVariant v ++ '\n' :: rest ≠ [] := by
    simp [renderStreamVariant, toL]
  rw [tagLoop, if_neg hne]
  simp only [renderStreamVariant] at hpv ⊢
  rw [bw_stream_not_iframe, bw_stream_yes]
  simp only [Bool.false_eq_true, if_false, if_true, hpv]

theorem tagLoop_iframe {f : Nat} {fr : IFrameStream} (hf : WFif fr)
    {rest : Str} (vs : List StreamVariant) (ms : List MediaTrack)
    (fs : List IFrameStream) :
    tagLoop (f + 1) (renderIFrameStream fr ++ '\n' :: rest) vs ms fs =
      tagLoop f ('\n' :: rest) vs ms (fs ++ [fr]) := by
  have hpf := parse_iframe_stream_render hf (T := '\n' :: rest)
    (Or.inr ⟨rest, rfl⟩)
  have hne : renderIFrameStream fr ++ '\n' :: rest ≠ [] := by
    simp [renderIFrameStream, toL]
  rw [tagLoop, if_neg hne]
  simp only [renderIFrameStream] at hpf ⊢
  rw [bw_iframe_yes]
  simp only [if_true, hpf]

theorem tagLoop_medias (ms' : List MediaTrack)
    (h : ∀ m ∈ ms', WFmt m ∧ lastQuoted m) (f : Nat) {rest : Str}
    (vs : List StreamVariant) (ms : List MediaTrack) (fs : List IFrameStream) :
    tagLoop (f + 2 * ms'.length)
      ((ms'.map (fun m => renderMediaTrack m ++ ['\n'])).flatten ++ rest) vs ms fs =
      tagLoop f rest vs (ms ++ ms') fs := by
  induction ms' generalizing ms f with
  | nil => simp
  | cons m tl ih =>
    have hsh : ((m :: tl).map (fun m => renderMediaTrack m ++ ['\n'])).flatten ++ rest =
        renderMediaTrack m ++
          '\n' :: ((tl.map (fun m => renderMediaTrack m ++ ['\n'])).flatten ++ rest) := by
      simp
    rw [hsh]
    have hfe : f + 2 * (m :: tl).length = ((f + 2 * tl.length) + 1) + 1 := by
      simp only [List.length_cons]
      omega
    rw [hfe, tagLoop_media (h m (by simp)).1 (h m (by simp)).2 vs ms fs,
      tagLoop_blank, ih (fun x hx => h x (List.mem_cons_of_mem _ hx)) f]
    rw [List.append_cons ms m tl]

theorem tagLoop_variants (vs' : List StreamVariant)
    (h : ∀ v ∈ vs', WFsv v) (f : Nat) {rest : Str}
    (vs : List StreamVariant) (ms : List MediaTrack) (fs : List IFrameStream) :
    tagLoop (f + 2 * vs'.length)
      ((vs'.map (fun v => renderStreamVariant v ++ ['\n'])).flatten ++ rest) vs ms fs =
      tagLoop f rest (vs ++ vs') ms fs := by
  induction vs' generalizing vs f with
  | nil => simp
  | cons v tl ih =>
    have hsh : ((v :: tl).map (fun v => renderStreamVariant v ++ ['\n'])).flatten ++ rest =
        renderStreamVariant v ++
          '\n' :: ((tl.map (fun v => renderStreamVariant v ++ ['\n'])).flatten ++ rest) := by
      simp
    rw [hsh]
    have hfe : f + 2 * (v :: tl).length = ((f + 2 * tl.length) + 1) + 1 := by
      simp only [List.length_cons]
      omega
    rw [hfe, tagLoop_variant (h v (by simp)) vs ms fs,
      tagLoop_blank, ih (fun x hx => h x (List.mem_cons_of_mem _ hx)) f]
    rw [List.append_cons vs v tl]

theorem tagLoop_frames (fs' : List IFrameStream)
    (h : ∀ fr ∈ fs', WFif fr) (f : Nat) {rest : Str}
    (vs : List StreamVariant) (ms : List MediaTrack) (fs : List IFrameStream) :
    tagLoop (f + 2 * fs'.length)
      ((fs'.map (fun fr => renderIFrameStream fr ++ ['\n'])).flatten ++ rest) vs ms fs =
      tagLoop f rest vs ms (fs ++ fs') := by
  induction fs' generalizing fs f with
  | nil => simp
  | cons fr tl ih =>
    have hsh : ((fr :: tl).map (fun fr => renderIFrameStream fr ++ ['\n'])).flatten ++ rest =
        renderIFrameStream fr ++
          '\n' :: ((tl.map (fun fr => renderIFrameStream fr ++ ['\n'])).flatten ++ rest) := by
      simp
    rw [hsh]
    have hfe : f + 2 * (fr :: tl).length = ((f + 2 * tl.length) + 1) + 1 := by
      simp only [List.length_cons]
      omega
    rw [hfe, tagLoop_iframe (h fr (by simp)) vs ms fs,
      tagLoop_blank, ih (fun x hx => h x (List.mem_cons_of_mem _ hx)) f]
    rw [List.append_cons fs fr tl]

theorem tagLoop_body (p : MasterPlaylist) (hWF : WFdoc p) (f : Nat) (rest : Str) :
    tagLoop (f + docCost p) (bodyStr p rest) [] [] [] =
      tagLoop f rest p.variants p.media p.frames := by
  obtain ⟨hv, hm, hf⟩ := hWF
  have h1 : f + docCost p =
      ((((((f + 2 * p.frames.length) + 1) + 2 * p.variants.length) + 1) +
        2 * p.media.length) + 1) := by
    unfold docCost
    omega
  rw [bodyStr, h1, tagLoop_blank, tagLoop_medias p.media hm _ _ _ _,
    tagLoop_blank, tagLoop_variants p.variants hv _ _ _ _,
    tagLoop_blank, tagLoop_frames p.frames hf _ _ _ _]
  simp

/-! ## The whole rendered document -/

theorem renderPlaylist_shape (p : MasterPlaylist) (rest : Str) :
    renderPlaylist p ++ rest =
      toL "#EXTM3U" ++ '\n' ::
        ((if p.independent_segments then
            toL "#EXT-X-INDEPENDENT-SEGMENTS" ++ ['\n'] else []) ++
          bodyStr p rest) := by
  unfold renderPlaylist bodyStr
  simp [List.append_assoc]

theorem parse_extm3u_render (X : Str) :
    parse_extm3u (toL "#EXTM3U" ++ '\n' :: X) = some X := by
  simp only [parse_extm3u, tagP_append, lineEnding_cons]

theorem indep_skip (X : Str) :
    parse_ext_x_independent_segments ('\n' :: X) = none := rfl

theorem indep_take (X : Str) :
    parse_ext_x_independent_segments
      ((toL "#EXT-X-INDEPENDENT-SEGMENTS" ++ ['\n']) ++ X) = some X := by
  rw [List.append_assoc]
  show parse_ext_x_independent_segments
    (toL "#EXT-X-INDEPENDENT-SEGMENTS" ++ '\n' :: X) = some X
  simp only [parse_ext_x_independent_segments, tagP_append, lineEnding_cons]

theorem flat_two_le {α : Type} (l : List α) (g : α → Str)
    (hg : ∀ x ∈ l, g x ≠ []) :
    2 * l.length ≤ ((l.map (fun x => g x ++ ['\n'])).flatten).length := by
  induction l with
  | nil => simp
  | cons x tl ih =>
    simp only [List.map_cons, List.flatten_cons, List.length_append,
      List.length_cons, List.length_nil]
    have h1 : 1 ≤ (g x).length :=
      List.length_pos.mpr (hg x (by simp))
    have h2 := ih (fun y hy => hg y (List.mem_cons_of_mem _ hy))
    omega

theorem renderMediaTrack_ne_nil (m : MediaTrack) : renderMediaTrack m ≠ [] := by
  simp [renderMediaTrack, toL]

theorem renderStreamVariant_ne_nil (v : StreamVariant) :
    renderStreamVariant v ≠ [] := by
  simp [renderStreamVariant, toL]

theorem renderIFrameStream_ne_nil (fr : IFrameStream) :
    renderIFrameStream fr ≠ [] := by
  simp [renderIFrameStream, toL]

theorem docCost_le (p : MasterPlaylist) (rest : Str) :
    docCost p ≤ (bodyStr p rest).length := by
  have h1 := flat_two_le p.media renderMediaTrack
    (fun x _ => renderMediaTrack_ne_nil x)
  have h2 := flat_two_le p.variants renderStreamVariant
    (fun x _ => renderStreamVariant_ne_nil x)
  have h3 := flat_two_le p.frames renderIFrameStream
    (fun x _ => renderIFrameStream_ne_nil x)
  unfold docCost bodyStr
  simp only [List.length_cons, List.length_append]
  omega

theorem indep_skip_body (p : MasterPlaylist) (rest : Str) :
    parse_ext_x_independent_segments (bodyStr p rest) = none := rfl

/-- After the header and the optional independent-segments line, parsing a
rendered playlist with `rest` appended runs the tag loop on `rest` with the
playlist's records already accumulated (and at least one unit of fuel). -/
theorem master_fuel (p : MasterPlaylist) (hWF : WFdoc p) (rest : Str) :
    ∃ g, parse_master_playlist (renderPlaylist p ++ rest) =
      assemble p.independent_segments
        (tagLoop (g + 1) rest p.variants p.media p.frames) := by
  rw [renderPlaylist_shape]
  have hcost := docCost_le p rest
  have hfuel : (bodyStr p rest).length + 1 =
      (((bodyStr p rest).length - docCost p) + 1) + docCost p := by
    omega
  refine ⟨(bodyStr p rest).length - docCost p, ?_⟩
  cases hI : p.independent_segments with
  | false =>
    rw [if_neg Bool.false_ne_true, List.nil_append]
    simp only [parse_master_playlist, parse_extm3u_render, indep_skip_body]
    rw [hfuel, tagLoop_body p hWF _ rest]
  | true =>
    rw [if_pos rfl]
    simp only [parse_master_playlist, parse_extm3u_render, indep_take]
    rw [hfuel, tagLoop_body p hWF _ rest]

/-- Parsing the serialization of a well-formed playlist recovers it exactly. -/
theorem parse_playlist_render {p : MasterPlaylist} (hWF : WFdoc p) :
    parse_playlist (renderPlaylist p) = some p := by
  obtain ⟨g, hg⟩ := master_fuel p hWF []
  rw [List.append_nil] at hg
  unfold parse_playlist
  rw [hg, tagLoop_end]
  rfl

/-- The tag loop fails on a nonempty unrecognized final line with no
terminator: the skip branch demands a `line_ending` after `not_line_ending`. -/
theorem tagLoop_junk {s : Str} (hne : s ≠ []) (hnl : noNL s)
    (h1 : beginsWith s (toL "#EXT-X-I-FRAME-STREAM-INF") = false)
    (h2 : beginsWith s (toL "#EXT-X-STREAM-INF") = false)
    (h3 : beginsWith s (toL "#EXT-X-MEDIA") = false)
    (g : Nat) (vs : List StreamVariant) (ms : List MediaTrack)
    (fs : List IFrameStream) : tagLoop (g + 1) s vs ms fs = none := by
  rw [tagLoop, if_neg hne, h1, h2, h3]
  simp only [Bool.false_eq_true, if_false]
  rw [notLineEnding_all hnl]
  rfl

/-- A well-formed rendered document followed by a nonempty unrecognized line
with no trailing terminator fails to parse. -/
theorem parse_playlist_render_junk {p : MasterPlaylist} (hWF : WFdoc p) {s : Str}
    (hne : s ≠ []) (hnl : noNL s)
    (h1 : beginsWith s (toL "#EXT-X-I-FRAME-STREAM-INF") = false)
    (h2 : beginsWith s (toL "#EXT-X-STREAM-INF") = false)
    (h3 : beginsWith s (toL "#EXT-X-MEDIA") = false) :
    parse_playlist (renderPlaylist p ++ s) = none := by
  obtain ⟨g, hg⟩ := master_fuel p hWF s
  unfold parse_playlist
  rw [hg, tagLoop_junk hne hnl h1 h2 h3]
  rfl

/-! ## Stability of the sort model -/

theorem mem_ordInsert {cmp : α → α → Ordering} {x y : α} {l : List α}
    (h : y ∈ ordInsert cmp x l) : y = x ∨ y ∈ l := by
  induction l with
  | nil => simp [ordInsert] at h; exact Or.inl h
  | cons z zs ih =>
    rw [ordInsert] at h
    by_cases hc : cmp x z ≠ .gt
    · rw [if_pos hc] at h
      rcases List.mem_cons.mp h with h | h
      · exact Or.inl h
      · exact Or.inr h
    · rw [if_neg hc] at h
      rcases List.mem_cons.mp h with h | h
      · exact Or.inr (h ▸ List.mem_cons_self z zs)
      · rcases ih h with h | h
        · exact Or.inl h
        · exact Or.inr (List.mem_cons_of_mem _ h)

theorem mem_sortByCmp {cmp : α → α → Ordering} {y : α} {l : List α}
    (h : y ∈ sortByCmp cmp l) : y ∈ l := by
  induction l with
  | nil => simp [sortByCmp] at h
  | cons x xs ih =>
    rw [sortByCmp] at h
    rcases mem_ordInsert h with h | h
    · exact h ▸ List.mem_cons_self x xs
    · exact List.mem_cons_of_mem _ (ih h)

theorem filter_ordInsert_pos {cmp : α → α → Ordering} {p : α → Bool} {x : α}
    (hx : p x = true) {l : List α}
    (hle : ∀ y ∈ l, p y = true → cmp x y ≠ .gt) :
    (ordInsert cmp x l).filter p = x :: l.filter p := by
  induction l with
  | nil => simp [ordInsert, hx]
  | cons y ys ih =>
    rw [ordInsert]
    by_cases hc : cmp x y ≠ .gt
    · rw [if_pos hc]
      simp [List.filter_cons, hx]
    · rw [if_neg hc]
      have hpy : p y = false := by
        rcases Bool.eq_false_or_eq_true (p y) with h | h
        · exact absurd (hle y (by simp) h) hc
        · exact h
      rw [List.filter_cons, List.filter_cons, hpy]
      simp only [Bool.false_eq_true, if_false]
      exact ih fun z hz hpz => hle z (List.mem_cons_of_mem _ hz) hpz

theorem filter_ordInsert_neg {cmp : α → α → Ordering} {p : α → Bool} {x : α}
    (hx : p x = false) (l : List α) :
    (ordInsert cmp x l).filter p = l.filter p := by
  induction l with
  | nil => simp [ordInsert, List.filter_cons, hx]
  | cons y ys ih =>
    rw [ordInsert]
    by_cases hc : cmp x y ≠ .gt
    · rw [if_pos hc]
      simp [List.filter_cons, hx]
    · rw [if_neg hc]
      rw [List.filter_cons, List.filter_cons, ih]

theorem filter_sortByCmp {cmp : α → α → Ordering} {p : α → Bool} {l : List α}
    (h : ∀ x ∈ l, ∀ y ∈ l, p x = true → p y = true → cmp x y = .eq) :
    (sortByCmp cmp l).filter p = l.filter p := by
  induction l with
  | nil => rfl
  | cons x xs ih =>
    rw [sortByCmp]
    have ih' := ih fun a ha b hb => h a (List.mem_cons_of_mem _ ha)
      b (List.mem_cons_of_mem _ hb)
    rcases Bool.eq_false_or_eq_true (p x) with hx | hx
    swap
    · rw [filter_ordInsert_neg hx, ih', List.filter_cons, hx]
      simp
    · have hle : ∀ y ∈ sortByCmp cmp xs, p y = true → cmp x y ≠ .gt := by
        intro y hy hpy
        have : cmp x y = .eq :=
          h x (by simp) y (List.mem_cons_of_mem _ (mem_sortByCmp hy)) hx hpy
        rw [this]
        exact fun hh => Ordering.noConfusion hh
      rw [filter_ordInsert_pos hx hle, ih', List.filter_cons, hx]
      simp

theorem sortByCmp_all_eq {cmp : α → α → Ordering} {l : List α}
    (h : ∀ x ∈ l, ∀ y ∈ l, cmp x y = .eq) : sortByCmp cmp l = l := by
  induction l with
  | nil => rfl
  | cons x xs ih =>
    rw [sortByCmp, ih (fun a ha b hb => h a (List.mem_cons_of_mem _ ha)
      b (List.mem_cons_of_mem _ hb))]
    cases xs with
    | nil => rfl
    | cons y ys =>
      rw [ordInsert, if_pos]
      rw [h x (by simp) y (by simp)]
      exact fun hh => Ordering.noConfusion hh

theorem optCmp_none_some {cmp : α → α → Ordering} {oa ob : Option α}
    (ha : oa.isNone = true) (hb : ob.isNone = false) : optCmp cmp oa ob = .lt := by
  cases oa <;> cases ob <;> simp_all [optCmp]

theorem optCmp_none_none {cmp : α → α → Ordering} {oa ob : Option α}
    (ha : oa.isNone = true) (hb : ob.isNone = true) : optCmp cmp oa ob = .eq := by
  cases oa <;> cases ob <;> simp_all [optCmp]

/-! ## Parsed attribute values are drawn from the attribute section -/

theorem mem_dropWhile_mem {p : Char → Bool} {l : Str} {c : Char}
    (h : c ∈ l.dropWhile p) : c ∈ l := by
  induction l with
  | nil => simp [List.dropWhile] at h
  | cons a t ih =>
    rw [List.dropWhile] at h
    cases hp : p a with
    | true =>
      rw [hp] at h
      exact List.mem_cons_of_mem _ (ih h)
    | false =>
      rw [hp] at h
      exact h

theorem mem_trimL_mem {l : Str} {c : Char} (h : c ∈ trimL l) : c ∈ l := by
  unfold trimL at h
  have h1 := mem_dropWhile_mem (List.mem_reverse.mp h)
  exact mem_dropWhile_mem (List.mem_reverse.mp h1)

theorem parse_quoted_chars {s r v : Str}
    (h : parse_quoted_string s = some (r, v)) :
    (∀ c ∈ v, c ∈ s) ∧ (∀ c ∈ r, c ∈ s) := by
  unfold parse_quoted_string at h
  by_cases hq : s.head? = some '"'
  · rw [if_pos hq] at h
    simp only at h
    by_cases hemp : s.tail.takeWhile (fun c => c ≠ '"') = []
    · rw [if_pos hemp] at h
      exact absurd h (by simp)
    · rw [if_neg hemp] at h
      by_cases hcl : ((s.tail.drop (s.tail.takeWhile
          (fun c => c ≠ '"')).length).head?) = some '"'
      · rw [if_pos hcl] at h
        rw [Option.some.injEq, Prod.mk.injEq] at h
        obtain ⟨rfl, rfl⟩ := h
        have htl : ∀ c, c ∈ s.tail → c ∈ s := by
          intro c hct
          cases s with
          | nil => simp at hct
          | cons a t => exact List.mem_cons_of_mem _ hct
        constructor
        · intro c hc
          exact htl c (mem_takeWhile_mem hc)
        · intro c hc
          have h1 : c ∈ (s.tail.drop (s.tail.takeWhile
              (fun c => c ≠ '"')).length) := by
            cases hdr : (s.tail.drop (s.tail.takeWhile
                (fun c => c ≠ '"')).length) with
            | nil => rw [hdr] at hc; simp at hc
            | cons d dt =>
              rw [hdr] at hc
              exact List.mem_cons_of_mem _ hc
          exact htl c (List.mem_of_mem_drop h1)
      · rw [if_neg hcl] at h
        exact absurd h (by simp)
  · rw [if_neg hq] at h
    exact absurd h (by simp)

theorem parse_unquoted_chars {s r v : Str}
    (h : parse_unquoted_string s = some (r, v)) :
    (∀ c ∈ v, c ∈ s) ∧ (∀ c ∈ r, c ∈ s) := by
  simp only [parse_unquoted_string] at h
  split at h
  · exact absurd h (by simp)
  · rw [Option.some.injEq, Prod.mk.injEq] at h
    obtain ⟨rfl, rfl⟩ := h
    constructor
    · intro c hc
      exact mem_takeWhile_mem (mem_trimL_mem hc)
    · intro c hc
      exact List.mem_of_mem_drop hc

theorem pqou_chars {s r v : Str}
    (h : parse_quoted_or_unquoted_string s = some (r, v)) : ∀ c ∈ v, c ∈ s := by
  unfold parse_quoted_or_unquoted_string at h
  by_cases hq : s.head? = some '"'
  · rw [if_pos hq] at h
    exact (parse_quoted_chars h).1
  · rw [if_neg hq] at h
    exact (parse_unquoted_chars h).1

theorem pqou_rest {s r v : Str}
    (h : parse_quoted_or_unquoted_string s = some (r, v)) : ∀ c ∈ r, c ∈ s := by
  unfold parse_quoted_or_unquoted_string at h
  by_cases hq : s.head? = some '"'
  · rw [if_pos hq] at h
    exact (parse_quoted_chars h).2
  · rw [if_neg hq] at h
    exact (parse_unquoted_chars h).2

theorem parse_key_rest {s s1 k : Str} (h : parse_key s = some (s1, k)) :
    ∃ n, s1 = s.drop n := by
  simp only [parse_key] at h
  split at h
  · exact absurd h (by simp)
  · rw [Option.some.injEq, Prod.mk.injEq] at h
    exact ⟨_, h.1.symm⟩

theorem tagP_rest {t : String} {s s1 : Str} (h : tagP t s = some s1) :
    ∃ n, s1 = s.drop n := by
  simp only [tagP] at h
  split at h
  · rw [Option.some.injEq] at h
    exact ⟨_, h.symm⟩
  · exact absurd h (by simp)

theorem parseKVPair_chars {s r : Str} {p : Str × Str}
    (h : parseKVPair s = some (r, p)) :
    (∀ c ∈ p.2, c ∈ s) ∧ (∀ c ∈ r, c ∈ s) := by
  unfold parseKVPair at h
  cases hk : parse_key s with
  | none =>
    simp only [hk] at h
    exact absurd h (by simp)
  | some res =>
    obtain ⟨s1, k⟩ := res
    simp only [hk] at h
    cases ht : tagP "=" s1 with
    | none =>
      simp only [ht] at h
      exact absurd h (by simp)
    | some s2 =>
      simp only [ht] at h
      cases hv : parse_quoted_or_unquoted_string s2 with
      | none =>
        simp only [hv] at h
        exact absurd h (by simp)
      | some res2 =>
        obtain ⟨s3, v⟩ := res2
        simp only [hv, Option.some.injEq, Prod.mk.injEq] at h
        obtain ⟨rfl, rfl, rfl⟩ := h
        obtain ⟨n1, rfl⟩ := parse_key_rest hk
        obtain ⟨n2, rfl⟩ := tagP_rest ht
        constructor
        · intro c hc
          exact List.mem_of_mem_drop (List.mem_of_mem_drop (pqou_chars hv c hc))
        · intro c hc
          exact List.mem_of_mem_drop (List.mem_of_mem_drop (pqou_rest hv c hc))

theorem kvLoop_chars {f : Nat} {s r : Str} {acc ps : List (Str × Str)}
    (h : kvLoop f s acc = some (r, ps)) :
    ∀ p ∈ ps, p ∈ acc ∨ ∀ c ∈ p.2, c ∈ s := by
  induction f generalizing s acc with
  | zero => simp [kvLoop] at h
  | succ f ih =>
    rw [kvLoop] at h
    by_cases hc : s.head? = some ','
    · rw [if_pos hc] at h
      cases hp : parseKVPair s.tail with
      | none =>
        simp only [hp, Option.some.injEq, Prod.mk.injEq] at h
        obtain ⟨-, rfl⟩ := h
        exact fun p hps => Or.inl hps
      | some res =>
        obtain ⟨s2, q⟩ := res
        simp only [hp] at h
        intro p hps
        have htail : ∀ c, c ∈ s.tail → c ∈ s := by
          intro c hct
          cases s with
          | nil => simp at hct
          | cons a t => exact List.mem_cons_of_mem _ hct
        rcases ih h p hps with hacc | hval
        · rcases List.mem_append.mp hacc with hacc | hacc
          · exact Or.inl hacc
          · rcases List.mem_singleton.mp hacc with rfl
            exact Or.inr fun c hcv =>
              htail c ((parseKVPair_chars hp).1 c hcv)
        · refine Or.inr fun c hcv => htail c ?_
          exact (parseKVPair_chars hp).2 c (hval c hcv)
    · rw [if_neg hc] at h
      rw [Option.some.injEq, Prod.mk.injEq] at h
      obtain ⟨-, rfl⟩ := h
      exact fun p hps => Or.inl hps

theorem kvList_chars {s r : Str} {ps : List (Str × Str)}
    (h : kvList s = some (r, ps)) : ∀ p ∈ ps, ∀ c ∈ p.2, c ∈ s := by
  unfold kvList at h
  cases hp : parseKVPair s with
  | none =>
    simp only [hp] at h
    exact absurd h (by simp)
  | some res =>
    obtain ⟨s1, q⟩ := res
    simp only [hp] at h
    intro p hps c hcv
    rcases kvLoop_chars h p hps with hacc | hval
    · rcases List.mem_singleton.mp hacc with rfl
      exact (parseKVPair_chars hp).1 c hcv
    · exact (parseKVPair_chars hp).2 c (hval c hcv)

/-! ## Parsed stream-variant and I-frame string fields are line-bounded -/

theorem takeWhile_pred {p : Char → Bool} {l : Str} {c : Char}
    (h : c ∈ l.takeWhile p) : p c = true := by
  induction l with
  | nil => simp [List.takeWhile] at h
  | cons a t ih =>
    rw [List.takeWhile] at h
    cases hp : p a with
    | true =>
      rw [hp] at h
      rcases List.mem_cons.mp h with h | h
      · exact h ▸ hp
      · exact ih h
    | false => rw [hp] at h; simp at h

theorem notLineEnding_res {s r a : Str} (h : notLineEnding s = some (r, a)) :
    noNL a := by
  unfold notLineEnding at h
  by_cases hc : (s.drop (s.takeWhile
      (fun c => c ≠ '\r' && c ≠ '\n')).length).head? = some '\r' ∧
      (s.drop (s.takeWhile
        (fun c => c ≠ '\r' && c ≠ '\n')).length).tail.head? ≠ some '\n'
  · rw [if_pos hc] at h
    exact absurd h (by simp)
  · rw [if_neg hc] at h
    rw [Option.some.injEq, Prod.mk.injEq] at h
    obtain ⟨-, rfl⟩ := h
    constructor
    · intro hmem
      have := takeWhile_pred hmem
      simp at this
    · intro hmem
      have := takeWhile_pred hmem
      simp at this

theorem applyStreamPair_strs (sv : StreamVariant) (p : Str × Str) :
    ((applyStreamPair sv p).codecs = sv.codecs ∨
      (applyStreamPair sv p).codecs = some p.2) ∧
    ((applyStreamPair sv p).video_range = sv.video_range ∨
      (applyStreamPair sv p).video_range = some p.2) ∧
    ((applyStreamPair sv p).audio = sv.audio ∨
      (applyStreamPair sv p).audio = some p.2) ∧
    ((applyStreamPair sv p).closed_captions = sv.closed_captions ∨
      (applyStreamPair sv p).closed_captions = some p.2) := by
  unfold applyStreamPair
  split_ifs <;> (try split) <;> (try split) <;> simp

theorem applyIFramePair_strs (fr : IFrameStream) (p : Str × Str) :
    ((applyIFramePair fr p).codecs = fr.codecs ∨
      (applyIFramePair fr p).codecs = some p.2) ∧
    ((applyIFramePair fr p).video_range = fr.video_range ∨
      (applyIFramePair fr p).video_range = some p.2) ∧
    ((applyIFramePair fr p).uri = fr.uri ∨ (applyIFramePair fr p).uri = p.2) := by
  unfold applyIFramePair
  split_ifs <;> (try split) <;> (try split) <;> simp

theorem foldSV_noNL {ps : List (Str × Str)} {sv : StreamVariant}
    (hvals : ∀ p ∈ ps, noNL p.2)
    (hsv : optNoNL sv.codecs ∧ optNoNL sv.video_range ∧ optNoNL sv.audio ∧
      optNoNL sv.closed_captions) :
    optNoNL (ps.foldl applyStreamPair sv).codecs ∧
    optNoNL (ps.foldl applyStreamPair sv).video_range ∧
    optNoNL (ps.foldl applyStreamPair sv).audio ∧
    optNoNL (ps.foldl applyStreamPair sv).closed_captions := by
  induction ps generalizing sv with
  | nil => exact hsv
  | cons p ps ih =>
    rw [List.foldl_cons]
    refine ih (fun q hq => hvals q (List.mem_cons_of_mem _ hq)) ?_
    obtain ⟨e1, e2, e3, e4⟩ := applyStreamPair_strs sv p
    have hp := hvals p (by simp)
    refine ⟨?_, ?_, ?_, ?_⟩
    · rcases e1 with e | e <;> rw [e]
      · exact hsv.1
      · exact hp
    · rcases e2 with e | e <;> rw [e]
      · exact hsv.2.1
      · exact hp
    · rcases e3 with e | e <;> rw [e]
      · exact hsv.2.2.1
      · exact hp
    · rcases e4 with e | e <;> rw [e]
      · exact hsv.2.2.2
      · exact hp

theorem foldIF_noNL {ps : List (Str × Str)} {fr : IFrameStream}
    (hvals : ∀ p ∈ ps, noNL p.2)
    (hfr : optNoNL fr.codecs ∧ optNoNL fr.video_range ∧ noNL fr.uri) :
    optNoNL (ps.foldl applyIFramePair fr).codecs ∧
    optNoNL (ps.foldl applyIFramePair fr).video_range ∧
    noNL (ps.foldl applyIFramePair fr).uri := by
  induction ps generalizing fr with
  | nil => exact hfr
  | cons p ps ih =>
    rw [List.foldl_cons]
    refine ih (fun q hq => hvals q (List.mem_cons_of_mem _ hq)) ?_
    obtain ⟨e1, e2, e3⟩ := applyIFramePair_strs fr p
    have hp := hvals p (by simp)
    refine ⟨?_, ?_, ?_⟩
    · rcases e1 with e | e <;> rw [e]
      · exact hfr.1
      · exact hp
    · rcases e2 with e | e <;> rw [e]
      · exact hfr.2.1
      · exact hp
    · rcases e3 with e | e <;> rw [e]
      · exact hfr.2.2
      · exact hp

theorem parse_stream_variant_noNL {s r : Str} {v : StreamVariant}
    (h : parse_stream_variant s = some (r, v)) :
    optNoNL v.codecs ∧ optNoNL v.video_range ∧ optNoNL v.audio ∧
    optNoNL v.closed_captions ∧ noNL v.uri := by
  unfold parse_stream_variant at h
  cases htg : tagP "#EXT-X-STREAM-INF:" s with
  | none => simp only [htg] at h; exact Option.noConfusion h
  | some s1 =>
    simp only [htg] at h
    cases hnl : notLineEnding s1 with
    | none => simp only [hnl] at h; exact Option.noConfusion h
    | some res =>
      obtain ⟨s2, sect⟩ := res
      simp only [hnl] at h
      cases hkv : kvList sect with
      | none => simp only [hkv] at h; exact Option.noConfusion h
      | some res2 =>
        obtain ⟨lft, pairs⟩ := res2
        simp only [hkv] at h
        cases hle : lineEnding s2 with
        | none => simp only [hle] at h; exact Option.noConfusion h
        | some s3 =>
          simp only [hle] at h
          cases hu : parse_uri s3 with
          | none => simp only [hu] at h; exact Option.noConfusion h
          | some res3 =>
            obtain ⟨s4, uri⟩ := res3
            simp only [hu, Option.some.injEq, Prod.mk.injEq] at h
            obtain ⟨rfl, rfl⟩ := h
            have hsect : noNL sect := notLineEnding_res hnl
            have hvals : ∀ p ∈ pairs, noNL p.2 := by
              intro p hp
              constructor
              · intro hmem
                exact hsect.1 (kvList_chars hkv p hp _ hmem)
              · intro hmem
                exact hsect.2 (kvList_chars hkv p hp _ hmem)
            have hfold := @foldSV_noNL pairs initSV hvals
              ⟨trivial, trivial, trivial, trivial⟩
            have huri : noNL uri := by
              unfold parse_uri at hu
              cases hnu : notLineEnding s3 with
              | none => simp only [hnu] at hu; exact Option.noConfusion hu
              | some res4 =>
                simp only [hnu, Option.some.injEq, Prod.mk.injEq] at hu
                obtain ⟨-, rfl⟩ := hu
                exact notLineEnding_res hnu
            exact ⟨hfold.1, hfold.2.1, hfold.2.2.1, hfold.2.2.2, huri⟩

theorem parse_iframe_stream_noNL {s r : Str} {fr : IFrameStream}
    (h : parse_iframe_stream s = some (r, fr)) :
    optNoNL fr.codecs ∧ optNoNL fr.video_range ∧ noNL fr.uri := by
  unfold parse_iframe_stream at h
  cases htg : tagP "#EXT-X-I-FRAME-STREAM-INF:" s with
  | none => simp only [htg] at h; exact Option.noConfusion h
  | some s1 =>
    simp only [htg] at h
    cases hnl : notLineEnding s1 with
    | none => simp only [hnl] at h; exact Option.noConfusion h
    | some res =>
      obtain ⟨s2, sect⟩ := res
      simp only [hnl] at h
      cases hkv : kvList sect with
      | none => simp only [hkv] at h; exact Option.noConfusion h
      | some res2 =>
        obtain ⟨lft, pairs⟩ := res2
        simp only [hkv, Option.some.injEq, Prod.mk.injEq] at h
        obtain ⟨rfl, rfl⟩ := h
        have hsect : noNL sect := notLineEnding_res hnl
        have hvals : ∀ p ∈ pairs, noNL p.2 := by
          intro p hp
          constructor
          · intro hmem
            exact hsect.1 (kvList_chars hkv p hp _ hmem)
          · intro hmem
            exact hsect.2 (kvList_chars hkv p hp _ hmem)
        exact @foldIF_noNL _ initIF hvals ⟨trivial, trivial, by decide⟩

/-! ## Absent-field comparison semantics -/

theorem sv_absent_lt {k : SortStreamBy} {a b : StreamVariant}
    (ha : svFieldNone k a = true) (hb : svFieldNone k b = false) :
    compare_stream a b k = .lt := by
  cases k <;> first
    | exact optCmp_none_some ha hb
    | exact absurd ha (by simp [svFieldNone])

theorem sv_absent_eq {k : SortStreamBy} {a b : StreamVariant}
    (ha : svFieldNone k a = true) (hb : svFieldNone k b = true) :
    compare_stream a b k = .eq := by
  cases k <;> first
    | exact optCmp_none_none ha hb
    | exact absurd ha (by simp [svFieldNone])

theorem mt_absent_lt {k : SortMediaBy} {a b : MediaTrack}
    (ha : mtFieldNone k a = true) (hb : mtFieldNone k b = false) :
    compare_media a b k = .lt := by
  cases k <;> exact optCmp_none_some ha hb

theorem mt_absent_eq {k : SortMediaBy} {a b : MediaTrack}
    (ha : mtFieldNone k a = true) (hb : mtFieldNone k b = true) :
    compare_media a b k = .eq := by
  cases k <;> exact optCmp_none_none ha hb

theorem if_absent_lt {k : SortIFrameBy} {a b : IFrameStream}
    (ha : ifFieldNone k a = true) (hb : ifFieldNone k b = false) :
    compare_iframe a b k = .lt := by
  cases k <;> first
    | exact optCmp_none_some ha hb
    | exact absurd ha (by simp [ifFieldNone])

theorem if_absent_eq {k : SortIFrameBy} {a b : IFrameStream}
    (ha : ifFieldNone k a = true) (hb : ifFieldNone k b = true) :
    compare_iframe a b k = .eq := by
  cases k <;> first
    | exact optCmp_none_none ha hb
    | exact absurd ha (by simp [ifFieldNone])

theorem sv_sort_absent_id {p : MasterPlaylist} {k : SortStreamBy × SortStreamBy}
    (h : ∀ v ∈ p.variants, svFieldNone k.1 v = true ∧ svFieldNone k.2 v = true) :
    p.sort_stream k = p := by
  have hall : ∀ x ∈ p.variants, ∀ y ∈ p.variants,
      cmpBy2 compare_stream k x y = .eq := by
    intro x hx y hy
    have e1 := sv_absent_eq (h x hx).1 (h y hy).1
    have e2 := sv_absent_eq (h x hx).2 (h y hy).2
    rw [cmpBy2, e1]
    exact e2
  show { p with variants := sortByCmp (cmpBy2 compare_stream k) p.variants } = p
  rw [sortByCmp_all_eq hall]

theorem mt_sort_absent_id {p : MasterPlaylist} {k : SortMediaBy × SortMediaBy}
    (h : ∀ m ∈ p.media, mtFieldNone k.1 m = true ∧ mtFieldNone k.2 m = true) :
    p.sort_media k = p := by
  have hall : ∀ x ∈ p.media, ∀ y ∈ p.media,
      cmpBy2 compare_media k x y = .eq := by
    intro x hx y hy
    have e1 := mt_absent_eq (h x hx).1 (h y hy).1
    have e2 := mt_absent_eq (h x hx).2 (h y hy).2
    rw [cmpBy2, e1]
    exact e2
  show { p with media := sortByCmp (cmpBy2 compare_media k) p.media } = p
  rw [sortByCmp_all_eq hall]

theorem if_sort_absent_id {p : MasterPlaylist} {k : SortIFrameBy × SortIFrameBy}
    (h : ∀ fr ∈ p.frames, ifFieldNone k.1 fr = true ∧ ifFieldNone k.2 fr = true) :
    p.sort_iframe k = p := by
  have hall : ∀ x ∈ p.frames, ∀ y ∈ p.frames,
      cmpBy2 compare_iframe k x y = .eq := by
    intro x hx y hy
    have e1 := if_absent_eq (h x hx).1 (h y hy).1
    have e2 := if_absent_eq (h x hx).2 (h y hy).2
    rw [cmpBy2, e1]
    exact e2
  show { p with frames := sortByCmp (cmpBy2 compare_iframe k) p.frames } = p
  rw [sortByCmp_all_eq hall]

/-! ## Which keys render quoted -/

theorem optPart_quoting {k : String} {q : Bool} {o : Option Str}
    (hk : (q = true) ↔ ((toL k : Str) ∈ quotedKeys)) :
    ∀ pt ∈ optPart k q o, (pt.2.2 = true ↔ pt.1 ∈ quotedKeys) := by
  intro pt h
  obtain ⟨v, -, rfl⟩ := mem_optPart h
  exact hk

theorem singleton_quoting {k v : Str} {q : Bool}
    (hk : (q = true) ↔ (k ∈ quotedKeys)) :
    ∀ pt ∈ [(k, v, q)], (pt.2.2 = true ↔ pt.1 ∈ quotedKeys) := by
  intro pt h
  rw [List.mem_singleton.mp h]
  exact hk

/-! ## The claims -/

/-- C1, counterexample: `TYPE="AUDIO"` is a syntactically valid media block
(the value grammar accepts quoted values for every key), but serializing its
parse drops the quotes, so `serialize(parse(text)) ≠ text`. -/
theorem c1_quoted_type_cex :
    (parse_media_track (toL "#EXT-X-MEDIA:TYPE=\"AUDIO\"")).map
        (fun r => renderMediaTrack r.2) =
      some (toL "#EXT-X-MEDIA:TYPE=AUDIO") ∧
    toL "#EXT-X-MEDIA:TYPE=AUDIO" ≠ toL "#EXT-X-MEDIA:TYPE=\"AUDIO\"" := by
  decide

/-- C1 (amended): the round trip holds in the render-first direction: parsing
the serialization of any well-formed record consumes it entirely and recovers
the record, for each of the three record types. -/
theorem c1_block_roundtrip :
    (∀ m : MediaTrack, WFmt m →
      parse_media_track (renderMediaTrack m) = some ([], m)) ∧
    (∀ v : StreamVariant, WFsv v →
      parse_stream_variant (renderStreamVariant v) = some ([], v)) ∧
    (∀ fr : IFrameStream, WFif fr →
      parse_iframe_stream (renderIFrameStream fr) = some ([], fr)) := by
  refine ⟨fun m hm => ?_, fun v hv => ?_, fun fr hf => ?_⟩
  · have h := parse_media_track_render hm (partsOK_nil_rest (mtParts m))
    rwa [List.append_nil] at h
  · have h := parse_stream_variant_render hv (Or.inl rfl)
    rwa [List.append_nil] at h
  · have h := parse_iframe_stream_render hf (Or.inl rfl)
    rwa [List.append_nil] at h

/-- C1's round trip at the concrete records `wM`, `wV`, `wF`. -/
theorem c1_block_roundtrip_witness :
    parse_media_track (renderMediaTrack wM) = some ([], wM) ∧
    parse_stream_variant (renderStreamVariant wV) = some ([], wV) ∧
    parse_iframe_stream (renderIFrameStream wF) = some ([], wF) :=
  ⟨c1_block_roundtrip.1 wM (by decide), c1_block_roundtrip.2.1 wV (by decide),
   c1_block_roundtrip.2.2 wF (by decide)⟩

/-- C2, counterexample: a present `AUDIO` value is emitted wrapped in double
quotes, not bare as the claim states. -/
theorem c2_audio_quoted_cex :
    cxAudioSV.audio = some (toL "a") ∧
    renderStreamVariant cxAudioSV =
      toL "#EXT-X-STREAM-INF:BANDWIDTH=1,AUDIO=\"a\"\nu" := by
  decide

/-- C2 (amended): across all three serializers, an attribute is emitted
quoted exactly when its key is `CODECS`, `GROUP-ID`, `NAME`, `LANGUAGE`,
`CHANNELS`, `URI` or `AUDIO`; every other key (`BANDWIDTH`, `TYPE`,
`DEFAULT`, `AUTOSELECT`, `FRAME-RATE`, `VIDEO-RANGE`, `CLOSED-CAPTIONS`,
`AVERAGE-BANDWIDTH`, `RESOLUTION`) is emitted bare. -/
theorem c2_quoting_classes :
    (∀ m : MediaTrack, ∀ pt ∈ mtParts m, (pt.2.2 = true ↔ pt.1 ∈ quotedKeys)) ∧
    (∀ v : StreamVariant, ∀ pt ∈ svParts v, (pt.2.2 = true ↔ pt.1 ∈ quotedKeys)) ∧
    (∀ fr : IFrameStream, ∀ pt ∈ ifParts fr, (pt.2.2 = true ↔ pt.1 ∈ quotedKeys)) := by
  refine ⟨?_, ?_, ?_⟩
  · intro m
    unfold mtParts
    refine List.forall_mem_append.mpr ⟨?_, optPart_quoting (by decide)⟩
    refine List.forall_mem_append.mpr ⟨?_, optPart_quoting (by decide)⟩
    refine List.forall_mem_append.mpr ⟨?_, optPart_quoting (by decide)⟩
    refine List.forall_mem_append.mpr ⟨?_, optPart_quoting (by decide)⟩
    refine List.forall_mem_append.mpr ⟨?_, optPart_quoting (by decide)⟩
    refine List.forall_mem_append.mpr ⟨?_, optPart_quoting (by decide)⟩
    exact List.forall_mem_append.mpr
      ⟨optPart_quoting (by decide), optPart_quoting (by decide)⟩
  · intro v
    unfold svParts
    refine List.forall_mem_append.mpr ⟨?_, optPart_quoting (by decide)⟩
    refine List.forall_mem_append.mpr ⟨?_, optPart_quoting (by decide)⟩
    refine List.forall_mem_append.mpr ⟨?_, optPart_quoting (by decide)⟩
    refine List.forall_mem_append.mpr ⟨?_, ?_⟩
    · refine List.forall_mem_append.mpr ⟨?_, ?_⟩
      · refine List.forall_mem_append.mpr ⟨?_, optPart_quoting (by decide)⟩
        refine List.forall_mem_append.mpr ⟨singleton_quoting (by decide), ?_⟩
        cases v.average_bandwidth with
        | none => intro pt h; exact absurd h (List.not_mem_nil pt)
        | some a => exact singleton_quoting (by decide)
      · cases v.resolution with
        | none => intro pt h; exact absurd h (List.not_mem_nil pt)
        | some r =>
          obtain ⟨w, h2⟩ := r
          exact singleton_quoting (by decide)
    · cases v.frame_rate with
      | none => intro pt h; exact absurd h (List.not_mem_nil pt)
      | some x => exact singleton_quoting (by decide)
  · intro fr
    unfold ifParts
    refine List.forall_mem_append.mpr ⟨?_, singleton_quoting (by decide)⟩
    refine List.forall_mem_append.mpr ⟨?_, optPart_quoting (by decide)⟩
    refine List.forall_mem_append.mpr ⟨?_, ?_⟩
    · exact List.forall_mem_append.mpr
        ⟨singleton_quoting (by decide), optPart_quoting (by decide)⟩
    · cases fr.resolution with
      | none => intro pt h; exact absurd h (List.not_mem_nil pt)
      | some r =>
        obtain ⟨w, h2⟩ := r
        exact singleton_quoting (by decide)

/-- C2's quoting rule at the concrete rendered `AUDIO` part of `cxAudioSV`. -/
theorem c2_quoting_classes_witness :
    (toL "AUDIO", toL "a", true).2.2 = true ↔
      (toL "AUDIO", toL "a", true).1 ∈ quotedKeys :=
  c2_quoting_classes.2.1 cxAudioSV (toL "AUDIO", toL "a", true) (by decide)

/-- C3, counterexample: a document whose stream-variant tag line is followed
by a line terminator but by no URI line parses successfully, and the variant's
`uri` is the empty string. -/
theorem c3_empty_uri_cex :
    (parse_playlist (toL "#EXTM3U\n#EXT-X-STREAM-INF:BANDWIDTH=1\n")).map
        (fun p => p.variants.map (fun v => v.uri)) = some [[]] := by
  decide

/-- C3 (amended): `parse_stream_variant` fails only when the attribute line
has no line terminator at all: on any terminator-free remainder after the
tag, the parse returns an error. -/
theorem c3_missing_terminator_fails :
    ∀ s : Str, noNL s →
      parse_stream_variant (toL "#EXT-X-STREAM-INF:" ++ s) = none := by
  intro s hs
  simp only [parse_stream_variant, tagP_append, notLineEnding_all hs]
  cases hkv : kvList s with
  | none => rfl
  | some r =>
    obtain ⟨l, ps⟩ := r
    rfl

/-- C3's failure at the concrete unterminated line `BANDWIDTH=1`. -/
theorem c3_missing_terminator_fails_witness :
    parse_stream_variant (toL "#EXT-X-STREAM-INF:" ++ toL "BANDWIDTH=1") = none :=
  c3_missing_terminator_fails (toL "BANDWIDTH=1") (by decide)

/-- C4, counterexample: `parse_media_track` runs the attribute grammar over
the whole remaining input, so its bare `TYPE` value runs through the line
terminator into the following line. -/
theorem c4_media_value_crosses_lines_cex :
    (parse_media_track (toL "#EXT-X-MEDIA:TYPE=AUDIO\nX")).map
        (fun r => r.2.track_type) = some (some (toL "AUDIO\nX")) ∧
    '\n' ∈ toL "AUDIO\nX" := by
  decide

/-- C4 (amended): the two parsers that isolate the tag's own line first
(`parse_stream_variant` and `parse_iframe_stream`) never produce a string
field containing a line terminator: their values are line-bounded. -/
theorem c4_value_line_bounded :
    (∀ (s r : Str) (v : StreamVariant), parse_stream_variant s = some (r, v) →
      optNoNL v.codecs ∧ optNoNL v.video_range ∧ optNoNL v.audio ∧
        optNoNL v.closed_captions ∧ noNL v.uri) ∧
    (∀ (s r : Str) (fr : IFrameStream), parse_iframe_stream s = some (r, fr) →
      optNoNL fr.codecs ∧ optNoNL fr.video_range ∧ noNL fr.uri) :=
  ⟨fun s r v h => parse_stream_variant_noNL h,
   fun s r fr h => parse_iframe_stream_noNL h⟩

/-- C4's line-boundedness at a concrete parsed stream variant. -/
theorem c4_value_line_bounded_witness :
    optNoNL cxAudioSV.codecs ∧ optNoNL cxAudioSV.video_range ∧
      optNoNL cxAudioSV.audio ∧ optNoNL cxAudioSV.closed_captions ∧
      noNL cxAudioSV.uri :=
  c4_value_line_bounded.1
    (toL "#EXT-X-STREAM-INF:BANDWIDTH=1,AUDIO=\"a\"\nu") [] cxAudioSV
    (by decide)

/-- C5: the sorts are stable: records that compare equal under the combined
(primary, secondary) comparator keep their relative order, stated as
preservation of every selection of pairwise-tied records. -/
theorem c5_sort_stability :
    (∀ (p : MasterPlaylist) (k : SortStreamBy × SortStreamBy)
        (q : StreamVariant → Bool),
      (∀ x ∈ p.variants, ∀ y ∈ p.variants, q x = true → q y = true →
        cmpBy2 compare_stream k x y = .eq) →
      (p.sort_stream k).variants.filter q = p.variants.filter q) ∧
    (∀ (p : MasterPlaylist) (k : SortMediaBy × SortMediaBy)
        (q : MediaTrack → Bool),
      (∀ x ∈ p.media, ∀ y ∈ p.media, q x = true → q y = true →
        cmpBy2 compare_media k x y = .eq) →
      (p.sort_media k).media.filter q = p.media.filter q) ∧
    (∀ (p : MasterPlaylist) (k : SortIFrameBy × SortIFrameBy)
        (q : IFrameStream → Bool),
      (∀ x ∈ p.frames, ∀ y ∈ p.frames, q x = true → q y = true →
        cmpBy2 compare_iframe k x y = .eq) →
      (p.sort_iframe k).frames.filter q = p.frames.filter q) :=
  ⟨fun p k q h => filter_sortByCmp h, fun p k q h => filter_sortByCmp h,
   fun p k q h => filter_sortByCmp h⟩

/-- C5's stability at the concrete playlist `pW`. -/
theorem c5_sort_stability_witness :
    (MasterPlaylist.sort_stream pW
        (SortStreamBy.bandwidth, SortStreamBy.bandwidth)).variants.filter
      (fun x => true) = pW.variants.filter (fun x => true) :=
  c5_sort_stability.1 pW (SortStreamBy.bandwidth, SortStreamBy.bandwidth)
    (fun x => true) (by decide)

/-- C6, counterexample: for `SortMediaBy` the default returned on an empty
selection is `GroupId` (variant #1), not field #0 (`Type`). -/
theorem c6_media_default_cex :
    get_sort_order ([] : List SortMediaBy) ≠
      (SortMediaBy.type, SortMediaBy.type) := by
  decide

/-- C6 (amended): `get_sort_order` returns the slice's first element (or the
enumeration's `#[default]` variant: `Bandwidth`, `GroupId`, `Bandwidth`
respectively) as primary, and the second element (or that same default) as
secondary. -/
theorem c6_sort_order_defaults :
    (∀ l : List SortStreamBy, get_sort_order l =
      (l.head?.getD SortStreamBy.bandwidth,
       (l.get? 1).getD SortStreamBy.bandwidth)) ∧
    (∀ l : List SortMediaBy, get_sort_order l =
      (l.head?.getD SortMediaBy.groupId,
       (l.get? 1).getD SortMediaBy.groupId)) ∧
    (∀ l : List SortIFrameBy, get_sort_order l =
      (l.head?.getD SortIFrameBy.bandwidth,
       (l.get? 1).getD SortIFrameBy.bandwidth)) :=
  ⟨fun l => rfl, fun l => rfl, fun l => rfl⟩

/-- C7, counterexample: re-serialization is not idempotent on every accepted
document: on `cxT` the second parse differs from the first (the normalized
media line ends in a bare value that then swallows following lines), so
`serialize(parse(serialize(parse(t))))` differs from `serialize(parse(t))`. -/
theorem c7_reserialize_cex :
    ((parse_playlist cxT).bind (fun p => parse_playlist (renderPlaylist p))).map
        renderPlaylist ≠
      (parse_playlist cxT).map renderPlaylist := by
  decide

/-- C7 (amended): on documents whose parse is well-formed (every media line
ends in a quoted attribute, all fields round-trip), serialization is a fixed
point: re-parsing the serialization and serializing again reproduces the
first serialization. -/
theorem c7_serialize_idempotent_wf :
    ∀ (t : Str) (p : MasterPlaylist), parse_playlist t = some p → WFdoc p →
      (parse_playlist (renderPlaylist p)).map renderPlaylist =
        (parse_playlist t).map renderPlaylist := by
  intro t p hp hWF
  rw [hp, parse_playlist_render hWF]

/-- C7's idempotence at the concrete document `c7t`. -/
theorem c7_serialize_idempotent_wf_witness :
    (parse_playlist (renderPlaylist c7p)).map renderPlaylist =
      (parse_playlist c7t).map renderPlaylist :=
  c7_serialize_idempotent_wf c7t c7p (by decide) (by decide)

/-- C8: under every optional sort key, an absent field compares strictly
below a present one, uniformly across the three record types; and sorting a
collection in which both chosen keys' fields are absent everywhere leaves it
unchanged. -/
theorem c8_absent_field_semantics :
    (∀ (k : SortStreamBy) (a b : StreamVariant), svFieldNone k a = true →
      svFieldNone k b = false → compare_stream a b k = .lt) ∧
    (∀ (k : SortMediaBy) (a b : MediaTrack), mtFieldNone k a = true →
      mtFieldNone k b = false → compare_media a b k = .lt) ∧
    (∀ (k : SortIFrameBy) (a b : IFrameStream), ifFieldNone k a = true →
      ifFieldNone k b = false → compare_iframe a b k = .lt) ∧
    (∀ (p : MasterPlaylist) (k : SortStreamBy × SortStreamBy),
      (∀ v ∈ p.variants, svFieldNone k.1 v = true ∧ svFieldNone k.2 v = true) →
      p.sort_stream k = p) ∧
    (∀ (p : MasterPlaylist) (k : SortMediaBy × SortMediaBy),
      (∀ m ∈ p.media, mtFieldNone k.1 m = true ∧ mtFieldNone k.2 m = true) →
      p.sort_media k = p) ∧
    (∀ (p : MasterPlaylist) (k : SortIFrameBy × SortIFrameBy),
      (∀ fr ∈ p.frames, ifFieldNone k.1 fr = true ∧ ifFieldNone k.2 fr = true) →
      p.sort_iframe k = p) :=
  ⟨fun k a b ha hb => sv_absent_lt ha hb,
   fun k a b ha hb => mt_absent_lt ha hb,
   fun k a b ha hb => if_absent_lt ha hb,
   fun p k h => sv_sort_absent_id h,
   fun p k h => mt_sort_absent_id h,
   fun p k h => if_sort_absent_id h⟩

/-- C8's semantics at concrete records: `wV2` (no average bandwidth) sorts
below `wV` (average bandwidth 600), and `c8pl` is unchanged by a sort on two
everywhere-absent keys. -/
theorem c8_absent_field_semantics_witness :
    compare_stream wV2 wV SortStreamBy.averageBandwidth = Ordering.lt ∧
    MasterPlaylist.sort_stream c8pl
      (SortStreamBy.averageBandwidth, SortStreamBy.codecs) = c8pl :=
  ⟨c8_absent_field_semantics.1 SortStreamBy.averageBandwidth wV2 wV
     (by decide) (by decide),
   c8_absent_field_semantics.2.2.2.1 c8pl
     (SortStreamBy.averageBandwidth, SortStreamBy.codecs) (by decide)⟩

/-- C10: a well-formed document followed by a trailing line that is not a
recognized tag and has no line terminator fails to parse (the skip step
requires consuming a line ending), while the document alone parses. -/
theorem c10_unterminated_trailing_line :
    ∀ (p : MasterPlaylist) (s : Str), WFdoc p → s ≠ [] → noNL s →
      beginsWith s (toL "#EXT-X-I-FRAME-STREAM-INF") = false →
      beginsWith s (toL "#EXT-X-STREAM-INF") = false →
      beginsWith s (toL "#EXT-X-MEDIA") = false →
      parse_playlist (renderPlaylist p) = some p ∧
        parse_playlist (renderPlaylist p ++ s) = none :=
  fun p s hWF hne hnl h1 h2 h3 =>
    ⟨parse_playlist_render hWF,
     parse_playlist_render_junk hWF hne hnl h1 h2 h3⟩

/-- C10's failure at the concrete document `pE` with trailing `#EXT-X-FOO`. -/
theorem c10_unterminated_trailing_line_witness :
    parse_playlist (renderPlaylist pE) = some pE ∧
      parse_playlist (renderPlaylist pE ++ toL "#EXT-X-FOO") = none :=
  c10_unterminated_trailing_line pE (toL "#EXT-X-FOO") (by decide) (by decide)
    (by decide) (by decide) (by decide) (by decide)
